import Mathlib

/-!
Crawoler: frontier, fetcher, parser and analyzer message handlers

A shallow embedding of the message handlers of the crawler
(`src/frontier/src/index.js`, `src/fetcher/src/index.js`,
`src/parser/src/index.js`, `src/analyzer/src`) together with the parts of
Redis, of the AMQP channel and of the JavaScript runtime they rely on.

* The Redis key space is a finite association list from strings to strings.
  Every key shares one namespace: URLs, decimal ids and the counter
  `urlIdSeq`.
* A callback chain is flattened into one function from the state before the
  message to the state after it, together with what was published and how the
  message was settled (ack, nack, or left unsettled).
* Transient failures of a store call are inputs: a record of booleans says
  which call of the handler fails.
* Two coordinators on one store are a step function on the store and the two
  positions in `processUrl`; an interleaving is the list saying whose store
  call is served next.
-/

namespace Crawoler

/-! ## Decimal integers, as Redis stores them -/

/-- The character of a decimal digit. -/
def digitChar (d : Nat) : Char := Char.ofNat (48 + d)

/-- The value of a decimal digit character. -/
def digitVal (c : Char) : Option Nat :=
  if 48 ≤ c.toNat ∧ c.toNat ≤ 57 then some (c.toNat - 48) else none

/-- Digits of `n`, most significant first, pushed in front of `acc`. -/
def decimalAux : Nat → Nat → List Char → List Char
  | 0, _, acc => acc
  | fuel + 1, n, acc =>
    if n / 10 = 0 then digitChar (n % 10) :: acc
    else decimalAux fuel (n / 10) (digitChar (n % 10) :: acc)

/-- Canonical decimal text of a natural number. -/
def decimal (n : Nat) : String := String.mk (decimalAux (n + 1) n [])

/-- Canonical decimal text of an integer. -/
def renderInt : Int → String
  | Int.ofNat n => decimal n
  | Int.negSucc n => String.mk ('-' :: (decimal (n + 1)).data)

/-- Reads a run of decimal digits, continuing from the value `acc`. -/
def readDigits : List Char → Nat → Option Nat
  | [], acc => some acc
  | c :: cs, acc =>
    match digitVal c with
    | none => none
    | some d => readDigits cs (acc * 10 + d)

/-- Reads an optional minus sign and a non-empty run of digits. -/
def readInt (cs : List Char) : Option Int :=
  match cs with
  | [] => none
  | '-' :: ds =>
    match ds with
    | [] => none
    | _ => (readDigits ds 0).map (fun m => - (m : Int))
  | _ => (readDigits cs 0).map (fun m => (m : Int))

/-- Largest value of a signed 64-bit integer. -/
def int64Max : Int := 9223372036854775807

/-- Smallest value of a signed 64-bit integer. -/
def int64Min : Int := -9223372036854775808

/-- The integer a Redis string value denotes: the text must be the canonical
decimal form (no leading zeros, no plus sign, no `-0`) of a signed 64-bit
integer. -/
def parseInt? (v : String) : Option Int :=
  match readInt v.data with
  | none => none
  | some i =>
    if renderInt i = v ∧ int64Min ≤ i ∧ i ≤ int64Max then some i else none

/-! ## The identifier store -/

/-- The Redis key space. -/
abbrev Store := List (String × String)

/-- The reserved key of the sequence counter. -/
def counterKey : String := "urlIdSeq"

namespace Store

/-- Redis `GET`: the value of the key, `none` for the nil reply. -/
def get : Store → String → Option String
  | [], _ => none
  | (a, b) :: r, k => if a = k then some b else get r k

/-- Redis `EXISTS` on one key: the reply is `1` or `0`. -/
def keyExists (s : Store) (k : String) : Nat :=
  match s.get k with
  | some _ => 1
  | none => 0

/-- Redis `SET`. -/
def set : Store → String → String → Store
  | [], k, v => [(k, v)]
  | (a, b) :: r, k, v => if a = k then (k, v) :: r else (a, b) :: set r k v

/-- Redis `INCR`: an absent key counts as `0`; a value that is not a signed
64-bit integer, or an increment that would overflow, is an error (`none`). -/
def incr (s : Store) (k : String) : Option (Int × Store) :=
  match s.get k with
  | none => some (1, s.set k "1")
  | some v =>
    match parseInt? v with
    | none => none
    | some i =>
      if i + 1 ≤ int64Max then some (i + 1, s.set k (renderInt (i + 1))) else none

end Store

/-! ## Buffers -/

/-- A Node.js buffer: a list of bytes. -/
abbrev Buffer := List Nat

/-- Node `buf.writeUInt32BE(value)` on a fresh 4-byte buffer: `none` when the
value is outside `0 .. 2^32 - 1` (Node throws a range error). -/
def writeUInt32BE (value : Int) : Option Buffer :=
  if 0 ≤ value ∧ value ≤ 4294967295 then
    let v := value.toNat
    some [v / 16777216 % 256, v / 65536 % 256, v / 256 % 256, v % 256]
  else none

/-- Node `buf.readUInt32BE()`: `none` when the buffer is shorter than 4 bytes
(Node throws a range error). -/
def readUInt32BE : Buffer → Option Nat
  | a :: b :: c :: d :: _ => some (a * 16777216 + b * 65536 + c * 256 + d)
  | _ => none

/-! ## JavaScript values and strings -/

/-- A value produced by `JSON.parse`. Numbers are kept as integers: the
handlers never compute with them. -/
inductive Json where
  | null : Json
  | bool : Bool → Json
  | num : Int → Json
  | str : String → Json
  | arr : List Json → Json
  | obj : List (String × Json) → Json

/-- The member of a parsed object: with duplicate keys the last one wins. -/
def lookupLast (k : String) : List (String × Json) → Option Json
  | [] => none
  | (a, v) :: r =>
    match lookupLast k r with
    | some w => some w
    | none => if a = k then some v else none

/-- UTF-16 code units of one character. -/
def utf16Char (c : Char) : List Nat :=
  if c.toNat < 65536 then [c.toNat]
  else [55296 + (c.toNat - 65536) / 1024, 56320 + (c.toNat - 65536) % 1024]

/-- UTF-16 code units of a string: what a JavaScript string is made of. -/
def utf16 (s : String) : List Nat := s.data.flatMap utf16Char

/-- Line terminators, which `.` does not match: LF, CR, U+2028, U+2029. -/
def isLineTerminator (u : Nat) : Bool :=
  u = 10 || u = 13 || u = 8232 || u = 8233

/-- Characters with a special meaning in a regular expression, `.` apart:
backslash, caret, dollar, star, plus, question mark, round, square and curly
brackets, and the vertical bar. -/
def isRegexSpecial (u : Nat) : Bool :=
  u = 92 || u = 94 || u = 36 || u = 42 || u = 43 || u = 63 || u = 40 || u = 41
    || u = 91 || u = 93 || u = 123 || u = 125 || u = 124

/-- Hosts whose text, read as a regular expression, is a sequence of literal
characters and dots. Host names and IPv4 addresses are of this form. The
matcher below is the JavaScript one for these hosts only. -/
def plainHost (h : String) : Bool := (utf16 h).all (fun u => !isRegexSpecial u)

/-- One pattern character against one input code unit: `.` is any code unit
but a line terminator, any other character is itself. -/
def atomMatches (p u : Nat) : Bool :=
  if p = 46 then !isLineTerminator u else p == u

/-- The pattern `h.*$` from the start of the input: the characters of `h` one
by one, then anything but a line terminator up to the end of the input. -/
def matchHostTail : List Nat → List Nat → Bool
  | [], us => us.all (fun u => !isLineTerminator u)
  | _ :: _, [] => false
  | p :: ps, u :: us => atomMatches p u && matchHostTail ps us

/-- When the input starts with the given code units, what follows them. -/
def dropLeading : List Nat → List Nat → Option (List Nat)
  | [], us => some us
  | _ :: _, [] => none
  | p :: ps, u :: us => if p = u then dropLeading ps us else none

/-! ## Frontier (`src/frontier/src/index.js`) -/

/-- How a consumed message ends up on a channel opened with `noAck: false`. -/
inductive Settle where
  | ack : Settle
  | nack : Settle
  | unsettled : Settle
  deriving DecidableEq, Repr

/-- A message of the `to_enqueue` queue, as `JSON.parse` sees its text:
`none` when `JSON.parse(message.content.toString())` throws. -/
structure Message where
  parsed : Option Json

/-- The message carrying the candidate `url`, as the parser and the seed
injector publish it. -/
def candidate (url : String) : Message := ⟨some (Json.obj [("url", Json.str url)])⟩

/-- What the expression `JSON.parse(payload).url` evaluates to. -/
inductive UrlField where
  | throws : UrlField
  | undefined : UrlField
  | value : Json → UrlField

/-- Evaluation of `JSON.parse(payload).url`: reading a member of `null`
throws, a boolean, number, string or array has no member `url`. -/
def urlField : Option Json → UrlField
  | none => UrlField.throws
  | some Json.null => UrlField.throws
  | some (Json.obj kvs) =>
    match lookupLast "url" kvs with
    | some j => UrlField.value j
    | none => UrlField.undefined
  | some _ => UrlField.undefined

/-- Which store calls of one `processUrl` run fail with a transient error. -/
structure Faults where
  existsErr : Bool
  getErr : Bool
  setUrlErr : Bool
  setIdErr : Bool
  incrErr : Bool

/-- Every store call succeeds. -/
def noFaults : Faults := ⟨false, false, false, false, false⟩

/-- What handling one message did: the store afterwards, the fetch jobs sent
to `to_crawl`, how the message was settled, and whether an exception left the
handler or one of its callbacks. -/
structure Effect where
  store : Store
  toCrawl : List Buffer
  settle : Settle
  raised : Bool

namespace Frontier

/-- Startup, `connectToRedis`: the counter is created with value 1 when the
key is absent and left alone otherwise. -/
def connectToRedis (s : Store) : Store :=
  if s.keyExists counterKey = 1 then s else s.set counterKey "1"

/-- The number `buf.writeUInt32BE` makes of its argument in `publishUrl`,
where the argument is the reply of `GET urlIdSeq`: `null` becomes 0 and a run
of decimal digits, with or without a minus sign, becomes the integer it
spells. `processUrl` reaches `publishUrl` only after `INCR urlIdSeq`
succeeded on the same value, so no other text arrives here; it is given 0, as
`NaN` is written. -/
def toNumber : Option String → Int
  | none => 0
  | some v =>
    match readInt v.data with
    | some i => i
    | none => 0

/-- The function `publishUrl`: the id as a 4-byte big-endian buffer, sent to
`to_crawl`; `none` when `writeUInt32BE` throws. -/
def publishUrl (urlId : Option String) : Option Buffer :=
  writeUInt32BE (toNumber urlId)

/-- The function `matchesHost` for a plain host: the test of the url against
`new RegExp("^(http://)?" + FRONTIER_HOST + ".*$")`. The optional group is
tried first with and then without `http://`. For a host with other special
characters this is not the JavaScript test: what holds for every host is
stated over `consumeWith`, where the test is a parameter. -/
def matchesHost (host url : String) : Bool :=
  (match dropLeading (utf16 "http://") (utf16 url) with
    | some rest => matchHostTail (utf16 host) rest
    | none => false)
  || matchHostTail (utf16 host) (utf16 url)

/-- The function `processUrl`. The two `set` calls have no callback, and the
client has no `error` listener: a failed `set` is emitted as an `error` event
nobody handles, which is taken here as an exception raised with no fetch job
and no acknowledgement; the `incr` command, sent in the same turn, is still
served by the store. The acknowledgement after publishing is delayed by a
timer; the delay is not modelled. When the counter key is absent the reply of
`GET` is `null`; the client refuses a `null` argument to `SET`, which is
taken here as an error raised out of the callback. -/
def processUrl (f : Faults) (s : Store) (url : String) : Effect :=
  if f.existsErr then ⟨s, [], Settle.nack, false⟩
  else if s.keyExists url = 1 then ⟨s, [], Settle.ack, false⟩
  else if f.getErr then ⟨s, [], Settle.nack, false⟩
  else
    match s.get counterKey with
    | none => ⟨s, [], Settle.unsettled, true⟩
    | some reply =>
      let s1 := if f.setUrlErr then s else s.set url reply
      let s2 := if f.setIdErr then s1 else s1.set reply url
      match (if f.incrErr then none else s2.incr counterKey) with
      | none => ⟨s2, [], Settle.unsettled, f.setUrlErr || f.setIdErr⟩
      | some (_, s3) =>
        if f.setUrlErr || f.setIdErr then ⟨s3, [], Settle.unsettled, true⟩
        else
          match publishUrl (some reply) with
          | none => ⟨s3, [], Settle.unsettled, true⟩
          | some buf => ⟨s3, [buf], Settle.ack, false⟩

/-- The function `consume`, with the host test taken as given: `test url`
is what `await matchesHost(url)` comes to for a string `url` under the
configured `FRONTIER_HOST`, `some true` for a match, `some false` for `null`,
and `none` when `new RegExp` throws on that host. A payload that does not
parse returns from the `catch`; a `url` that is not a string makes `url.match`
throw outside the `try`, as does a host that is no regular expression; a url
that does not match the host is only logged. -/
def consumeWith (test : String → Option Bool) (f : Faults) (s : Store) (m : Message) :
    Effect :=
  match urlField m.parsed with
  | UrlField.throws => ⟨s, [], Settle.unsettled, false⟩
  | UrlField.value (Json.str url) =>
    match test url with
    | some true => processUrl f s url
    | some false => ⟨s, [], Settle.unsettled, false⟩
    | none => ⟨s, [], Settle.unsettled, true⟩
  | _ => ⟨s, [], Settle.unsettled, true⟩

/-- The host test of a plain host, computed by `matchesHost`: the regular
expression of a plain host is always well formed. -/
def hostTest (host : String) : String → Option Bool :=
  fun url => some (matchesHost host url)

/-- The function `consume` under a plain host. -/
def consume (host : String) (f : Faults) (s : Store) (m : Message) : Effect :=
  consumeWith (hostTest host) f s m

/-- One coordinator handling the messages one after the other, no store call
failing: the store after the last message and the effect of each message. -/
def consumeAllWith (test : String → Option Bool) :
    Store → List Message → Store × List Effect
  | s, [] => (s, [])
  | s, m :: ms =>
    let e := consumeWith test noFaults s m
    let r := consumeAllWith test e.store ms
    (r.1, e :: r.2)

/-- The same under a plain host. -/
def consumeAll (host : String) : Store → List Message → Store × List Effect :=
  consumeAllWith (hostTest host)

/-- The store a fresh admission of `url` under id `n` leaves behind. -/
def boundStore (s : Store) (url : String) (n : Nat) : Store :=
  ((s.set url (decimal n)).set (decimal n) url).set counterKey (decimal (n + 1))

/-- A message was admitted: a fetch job was published for it. -/
def admitted (e : Effect) : Bool := !e.toCrawl.isEmpty

end Frontier

/-! ## Fetcher (`src/fetcher/src/index.js`) -/

namespace Fetcher

/-- What the fetcher meets outside the store: whether `redisClient.get`
fails, whether `scrape` resolves for the id and the url read from the store
(`null` when the key is absent), and the size `fs.statSync` reports for
`websites/<id>/index.html` (`none` when it throws). -/
structure Env where
  getErr : Bool
  scrape : Nat → Option String → Bool
  statSize : Nat → Option Nat

/-- What handling one `to_crawl` message did: the messages sent to `to_parse`
and to `to_analyze`, and whether the handler's promise was rejected. -/
structure Effect where
  toParse : List Buffer
  toAnalyze : List Json
  raised : Bool

/-- The function `publishUrl` of the fetcher: `none` when `writeUInt32BE`
throws. -/
def publishUrl (urlId : Nat) : Option Buffer := writeUInt32BE (urlId : Int)

/-- The function `publishPageSize`: `none` when `fs.statSync` throws. -/
def publishPageSize (env : Env) (urlId : Nat) : Option Json :=
  match env.statSize urlId with
  | none => none
  | some size =>
    some (Json.obj [("dataType", Json.str "FILE_SIZE"),
      ("payload", Json.obj [("size", Json.num size), ("urlId", Json.num urlId)])])

/-- The function `consume` of the fetcher. Reading the id and the store
lookup are outside the `try`; `scrape`, `publishUrl` and `publishPageSize`
are inside it, in this order. -/
def consume (env : Env) (s : Store) (content : Buffer) : Effect :=
  match readUInt32BE content with
  | none => ⟨[], [], true⟩
  | some id =>
    if env.getErr then ⟨[], [], true⟩
    else
      let url := s.get (decimal id)
      if env.scrape id url then
        match publishUrl id with
        | none => ⟨[], [], false⟩
        | some buf =>
          match publishPageSize env id with
          | none => ⟨[buf], [], false⟩
          | some msg => ⟨[buf], [msg], false⟩
      else ⟨[], [], false⟩

end Fetcher

/-! ## Parser (`src/parser/src/index.js`) -/

namespace Parser

/-- What the parser meets outside the store: whether `redisClient.get` fails,
and the `href` attribute of each `a` element of `websites/<id>/index.html`
in document order (`none` for an element without the attribute; no list at
all when the file cannot be read). -/
structure Env where
  getErr : Bool
  page : Nat → Option (List (Option String))

/-- What parsing one page did: the candidates sent to `to_enqueue` and
whether the handler's promise was rejected. -/
structure Effect where
  toEnqueue : List Message
  raised : Bool

/-- The function `publishToEnqueue`: the message published for a url. -/
def publishToEnqueue (url : String) : Message := candidate url

/-- JavaScript `finalUrl.startsWith("/")`. -/
def startsWithSlash (href : String) : Bool :=
  match href.data with
  | c :: _ => c = '/'
  | [] => false

/-- JavaScript `url + finalUrl`, where `url` is the reply of the store
(`null` reads as the text `null`). -/
def concatUrl (url : Option String) (href : String) : String :=
  match url with
  | some u => u ++ href
  | none => "null" ++ href

/-- The body of `$(links).each(...)`: an element without `href` makes
`finalUrl.startsWith` throw, which ends the loop. -/
def eachLink (url : Option String) : List (Option String) → List Message × Bool
  | [] => ([], false)
  | none :: _ => ([], true)
  | some href :: rest =>
    let finalUrl := if startsWithSlash href then concatUrl url href else href
    let r := eachLink url rest
    (publishToEnqueue finalUrl :: r.1, r.2)

/-- The function `parseLinks`. -/
def parseLinks (env : Env) (s : Store) (urlId : Nat) : Effect :=
  if env.getErr then ⟨[], true⟩
  else
    let url := s.get (decimal urlId)
    match env.page urlId with
    | none => ⟨[], true⟩
    | some links =>
      let r := eachLink url links
      ⟨r.1, r.2⟩

/-- The function `consume` of the parser. -/
def consume (env : Env) (s : Store) (content : Buffer) : Effect :=
  match readUInt32BE content with
  | none => ⟨[], true⟩
  | some id => parseLinks env s id

end Parser

/-! ## Two coordinators on one store -/

namespace Frontier

/-- Where a coordinator stands in `processUrl`: the store call it issues
next, with the reply of `GET urlIdSeq` once it has it. -/
inductive Pc where
  | atExists : Pc
  | atGet : Pc
  | atSetUrl : String → Pc
  | atSetId : String → Pc
  | atIncr : String → Pc
  | done : Pc
  deriving DecidableEq

/-- One coordinator in the middle of `processUrl`: where it stands, the fetch
jobs it has published, how it settled its message and whether it raised. -/
structure Worker where
  pc : Pc
  toCrawl : List Buffer
  settle : Settle
  raised : Bool
  deriving DecidableEq

/-- A coordinator that has just received its message. -/
def Worker.start : Worker := ⟨Pc.atExists, [], Settle.unsettled, false⟩

/-- One store call of `processUrl` served by the store, no call failing, and
the callback that follows it. A coordinator that is done does nothing. -/
def stepWorker (url : String) (s : Store) (w : Worker) : Store × Worker :=
  match w.pc with
  | Pc.atExists =>
    if s.keyExists url = 1 then (s, ⟨Pc.done, w.toCrawl, Settle.ack, w.raised⟩)
    else (s, ⟨Pc.atGet, w.toCrawl, w.settle, w.raised⟩)
  | Pc.atGet =>
    match s.get counterKey with
    | none => (s, ⟨Pc.done, w.toCrawl, w.settle, true⟩)
    | some reply => (s, ⟨Pc.atSetUrl reply, w.toCrawl, w.settle, w.raised⟩)
  | Pc.atSetUrl reply => (s.set url reply, ⟨Pc.atSetId reply, w.toCrawl, w.settle, w.raised⟩)
  | Pc.atSetId reply => (s.set reply url, ⟨Pc.atIncr reply, w.toCrawl, w.settle, w.raised⟩)
  | Pc.atIncr reply =>
    match s.incr counterKey with
    | none => (s, ⟨Pc.done, w.toCrawl, w.settle, w.raised⟩)
    | some (_, s3) =>
      match publishUrl (some reply) with
      | none => (s3, ⟨Pc.done, w.toCrawl, w.settle, true⟩)
      | some buf => (s3, ⟨Pc.done, w.toCrawl ++ [buf], Settle.ack, w.raised⟩)
  | Pc.done => (s, w)

/-- Two coordinators and the store they share. -/
structure Pair where
  store : Store
  first : Worker
  second : Worker

/-- The store serves the next call of one of the two coordinators: of the
second when `who` is true, of the first otherwise. -/
def stepPair (url : String) (p : Pair) (who : Bool) : Pair :=
  if who then
    ⟨(stepWorker url p.store p.second).1, p.first, (stepWorker url p.store p.second).2⟩
  else
    ⟨(stepWorker url p.store p.first).1, (stepWorker url p.store p.first).2, p.second⟩

/-- An interleaving: the order in which the store serves the calls of the two
coordinators. -/
def runPair (url : String) : Pair → List Bool → Pair
  | p, [] => p
  | p, who :: rest => runPair url (stepPair url p who) rest

/-- Both coordinators are through with their message. -/
def Pair.finished (p : Pair) : Bool := p.first.pc = Pc.done && p.second.pc = Pc.done

/-- The first three store calls served come from one coordinator: its url
write is served before the existence check of the other. -/
def checkAfterWrite : List Bool → Bool
  | a :: b :: c :: _ => a == b && b == c
  | _ => false

/-- The store calls a coordinator has at most still to make. -/
def stepsLeft : Pc → Nat
  | Pc.atExists => 5
  | Pc.atGet => 4
  | Pc.atSetUrl _ => 3
  | Pc.atSetId _ => 2
  | Pc.atIncr _ => 1
  | Pc.done => 0

/-- The two coordinators with their roles exchanged. -/
def Pair.swap (p : Pair) : Pair := ⟨p.store, p.second, p.first⟩

/-- The four bytes of the fetch job of an id. -/
def jobBytes (n : Nat) : Buffer :=
  [n / 16777216 % 256, n / 65536 % 256, n / 256 % 256, n % 256]

/-- The states two coordinators go through once the first has written the
url under the id `n` before the second has made its existence check: the
second is at its start or has acknowledged without a job, the first is at its
id write, at its increment, or done with the job of `n`. -/
def SerialInv (s : Store) (url : String) (n : Nat) (p : Pair) : Prop :=
  (p.second = Worker.start ∨ p.second = ⟨Pc.done, [], Settle.ack, false⟩) ∧
  ((p.first = ⟨Pc.atSetId (decimal n), [], Settle.unsettled, false⟩ ∧
      p.store = s.set url (decimal n)) ∨
    (p.first = ⟨Pc.atIncr (decimal n), [], Settle.unsettled, false⟩ ∧
      p.store = (s.set url (decimal n)).set (decimal n) url) ∨
    (p.first = ⟨Pc.done, [jobBytes n], Settle.ack, false⟩ ∧
      p.store = boundStore s url n))

/-- A coordinator that found the url absent: it has published nothing and is
at its counter read or holds an id of at most `n + 1`, or it is done and has
published one job. -/
def Racing (n : Nat) (w : Worker) : Prop :=
  (w.toCrawl = [] ∧
    (w.pc = Pc.atGet ∨ ∃ m, m ≤ n + 1 ∧
      (w.pc = Pc.atSetUrl (decimal m) ∨ w.pc = Pc.atSetId (decimal m) ∨
        w.pc = Pc.atIncr (decimal m)))) ∨
  (w.pc = Pc.done ∧ w.toCrawl.length = 1)

/-- Counts a coordinator that is done. -/
def doneCount (w : Worker) : Nat := if w.pc = Pc.done then 1 else 0

/-- The states two coordinators go through once both have found the url
absent: the counter has advanced by the number of coordinators done. -/
def RaceInv (n : Nat) (p : Pair) : Prop :=
  Racing n p.first ∧ Racing n p.second ∧
  p.store.get counterKey = some (decimal (n + doneCount p.first + doneCount p.second))

end Frontier

/-! ## Analyzer (`src/analyzer/src/index.js`, `Stats.js`, `Bar.js`) -/

/-- Reading a member of a parsed value, as in `parsed.event`: `none` when the
read throws (the value is `null`), `some none` when the member is
`undefined`. -/
def readMember (k : String) : Json → Option (Option Json)
  | Json.null => none
  | Json.obj kvs => some (lookupLast k kvs)
  | _ => some none

namespace Analyzer

/-- The values last given to the progress bars. The mean out degree is `none`
when it is the quotient by zero fetched pages. -/
structure BarValues where
  totalDisc : Nat
  totalFetched : Nat
  meanOut : Option Nat
  meanSize : Nat
  meanUrlSize : Nat
  deriving DecidableEq

/-- The class `Stats`. Sizes are natural numbers, and the sums and the
quotients shown by the bars are computed exactly, as the code computes them
while the totals stay below 2^53. -/
structure Stats where
  totalFetched : Nat
  totalDiscovered : Nat
  totalSize : Nat
  totalUrlSize : Nat
  bar : BarValues
  deriving DecidableEq

/-- The constructor of `Stats`, with every bar created at 0. -/
def Stats.new : Stats := ⟨0, 0, 0, 0, ⟨0, 0, some 0, 0, 0⟩⟩

/-- The method `pageFetched`. -/
def Stats.pageFetched (st : Stats) (size : Nat) : Stats :=
  let fetched := st.totalFetched + 1
  let total := st.totalSize + size
  { st with
    totalFetched := fetched
    totalSize := total
    bar := { st.bar with totalFetched := fetched, meanSize := total / fetched / 1024 } }

/-- The method `linkDiscovered`: the length of the url is counted in UTF-16
code units. -/
def Stats.linkDiscovered (st : Stats) (url : String) : Stats :=
  let discovered := st.totalDiscovered + 1
  let urlSize := st.totalUrlSize + (utf16 url).length * 2
  { st with
    totalDiscovered := discovered
    totalUrlSize := urlSize
    bar := { st.bar with
      totalDisc := discovered
      meanUrlSize := urlSize / discovered
      meanOut := if st.totalFetched = 0 then none else some (discovered / st.totalFetched) } }

/-- What the handler of a `to_analyze` message did: it returned with these
statistics, it threw, or it computed with a value that is not a natural
number or a string, which is outside this model. -/
inductive Handled where
  | ok : Stats → Handled
  | throws : Handled
  | outside : Handled
  deriving DecidableEq

/-- The `FETCH` case of the handler: `stats.pageFetched(parsed.payload.size)`. -/
def onFetch (st : Stats) (parsed : Json) : Handled :=
  match readMember "payload" parsed with
  | none => Handled.throws
  | some none => Handled.throws
  | some (some payload) =>
    match readMember "size" payload with
    | none => Handled.throws
    | some (some (Json.num n)) =>
      if 0 ≤ n then Handled.ok (st.pageFetched n.toNat) else Handled.outside
    | some _ => Handled.outside

/-- The `DISCOVER` case of the handler:
`stats.linkDiscovered(parsed.payload.url)`, where reading the length of an
`undefined` or `null` url throws. -/
def onDiscover (st : Stats) (parsed : Json) : Handled :=
  match readMember "payload" parsed with
  | none => Handled.throws
  | some none => Handled.throws
  | some (some payload) =>
    match readMember "url" payload with
    | none => Handled.throws
    | some none => Handled.throws
    | some (some Json.null) => Handled.throws
    | some (some (Json.str url)) => Handled.ok (st.linkDiscovered url)
    | some _ => Handled.outside

/-- The handler `consume(stats)` of the analyzer, on what `JSON.parse` makes
of the message (`none` when it throws): the `switch` on `parsed.event`. -/
def consume (st : Stats) (m : Option Json) : Handled :=
  match m with
  | none => Handled.throws
  | some parsed =>
    match readMember "event" parsed with
    | none => Handled.throws
    | some (some (Json.str ev)) =>
      if ev = "FETCH" then onFetch st parsed
      else if ev = "DISCOVER" then onDiscover st parsed
      else Handled.ok st
    | some _ => Handled.ok st

/-- The loop `for (let i = 0; i < bound; i++) barStr += cell`, started at `i`
with `fuel` rounds left. The bound is a whole or half number and is given
doubled, so that `i < bound` reads `2 * i < twice`. -/
def appendCells (cell : Char) (twice : Int) : Nat → Nat → List Char → List Char
  | 0, _, acc => acc
  | fuel + 1, i, acc =>
    if 2 * (i : Int) < twice then appendCells cell twice fuel (i + 1) (acc ++ [cell])
    else acc

/-- The method `createBarStr` of `Bar`: the loop bounds are `percentage / 2`
and `50 - percentage / 2`. Either loop ends within as many rounds as its
doubled bound. -/
def createBarStr (percentage : Int) : String :=
  String.mk
    (appendCells '░' (100 - percentage) (100 - percentage).toNat 0
      (appendCells '█' percentage percentage.toNat 0 []))

end Analyzer

/-! ## Decimal text: reading back what was written -/

theorem digitVal_digitChar (d : Nat) (h : d < 10) : digitVal (digitChar d) = some d := by
  interval_cases d <;> decide

theorem digitChar_ne_minus (d : Nat) (h : d < 10) : digitChar d ≠ '-' := by
  interval_cases d <;> decide

theorem readDigits_decimalAux (fuel : Nat) :
    ∀ (n : Nat) (acc : List Char), n < fuel →
      readDigits (decimalAux fuel n acc) 0 = readDigits acc n := by
  induction fuel with
  | zero => intro n acc h; omega
  | succ fuel ih =>
    intro n acc h
    have hd : digitVal (digitChar (n % 10)) = some (n % 10) :=
      digitVal_digitChar _ (Nat.mod_lt _ (by decide))
    unfold decimalAux
    split
    · rename_i h0
      have hn : n % 10 = n := by omega
      simp only [readDigits, hd]
      simp [hn]
    · rename_i h0
      rw [ih (n / 10) _ (by omega)]
      simp only [readDigits, hd]
      congr 1
      omega

theorem decimalAux_head (fuel : Nat) :
    ∀ (n : Nat) (acc : List Char),
      ∃ d rest, d < 10 ∧ decimalAux (fuel + 1) n acc = digitChar d :: rest := by
  induction fuel with
  | zero =>
    intro n acc
    refine ⟨n % 10, acc, Nat.mod_lt _ (by decide), ?_⟩
    simp [decimalAux]
  | succ fuel ih =>
    intro n acc
    unfold decimalAux
    split
    · exact ⟨n % 10, acc, Nat.mod_lt _ (by decide), rfl⟩
    · exact ih _ _

theorem readInt_decimal (n : Nat) : readInt (decimal n).data = some (n : Int) := by
  obtain ⟨d, rest, hd, hr⟩ := decimalAux_head n n []
  have hrd := readDigits_decimalAux (n + 1) n [] (by omega)
  have hdata : (decimal n).data = decimalAux (n + 1) n [] := rfl
  rw [hdata]
  rw [hr] at hrd ⊢
  have hm := digitChar_ne_minus d hd
  unfold readInt
  split
  · simp_all
  · simp_all
  · rw [hrd]; simp [readDigits]

theorem decimal_injective (a b : Nat) (h : decimal a = decimal b) : a = b := by
  have ha := readInt_decimal a
  rw [h, readInt_decimal b] at ha
  simpa using ha.symm

theorem decimal_ne_counterKey (n : Nat) : decimal n ≠ counterKey := by
  intro h
  have ha := readInt_decimal n
  rw [h] at ha
  have hb : readInt counterKey.data = none := by decide
  rw [hb] at ha
  cases ha

theorem renderInt_natCast (n : Nat) : renderInt (n : Int) = decimal n := rfl

theorem parseInt_decimal (n : Nat) :
    parseInt? (decimal n) = if (n : Int) ≤ int64Max then some (n : Int) else none := by
  unfold parseInt?
  rw [readInt_decimal]
  have h0 : int64Min ≤ (n : Int) := by unfold int64Min; omega
  simp [renderInt_natCast, h0]

/-! ## Store and buffer lemmas -/

theorem Store.get_set_self (s : Store) (k v : String) : (s.set k v).get k = some v := by
  induction s with
  | nil => simp [Store.set, Store.get]
  | cons p r ih =>
    obtain ⟨a, b⟩ := p
    by_cases h : a = k
    · simp [Store.set, Store.get, h]
    · simp [Store.set, Store.get, h, ih]

theorem Store.get_set_ne (s : Store) (k v k' : String) (h : k' ≠ k) :
    (s.set k v).get k' = s.get k' := by
  induction s with
  | nil => simp [Store.set, Store.get, Ne.symm h]
  | cons p r ih =>
    obtain ⟨a, b⟩ := p
    by_cases h1 : a = k
    · subst h1
      simp [Store.set, Store.get, Ne.symm h]
    · by_cases h2 : a = k'
      · subst h2
        simp [Store.set, Store.get, h1]
      · simp [Store.set, Store.get, h1, h2, ih]

theorem Store.keyExists_eq_one (s : Store) (k : String) :
    s.keyExists k = 1 ↔ s.get k ≠ none := by
  unfold Store.keyExists
  cases s.get k <;> simp

theorem Store.incr_decimal (s : Store) (n : Nat) (hn : (n : Int) + 1 ≤ int64Max)
    (hc : s.get counterKey = some (decimal n)) :
    s.incr counterKey = some ((n : Int) + 1, s.set counterKey (decimal (n + 1))) := by
  unfold Store.incr
  rw [hc]
  simp only [parseInt_decimal]
  have h1 : (n : Int) ≤ int64Max := by omega
  have h2 : renderInt ((n : Int) + 1) = decimal (n + 1) := rfl
  simp [h1, hn, h2]

theorem Store.incr_decimal_overflow (s : Store) (n : Nat) (hn : ¬ (n : Int) + 1 ≤ int64Max)
    (hc : s.get counterKey = some (decimal n)) :
    s.incr counterKey = none := by
  unfold Store.incr
  rw [hc]
  simp only [parseInt_decimal]
  split
  · rfl
  · rename_i i hi
    split at hi
    · cases hi
      simp [hn]
    · cases hi

theorem writeUInt32BE_nat (n : Nat) (hn : n < 4294967296) :
    writeUInt32BE (n : Int) =
      some [n / 16777216 % 256, n / 65536 % 256, n / 256 % 256, n % 256] := by
  unfold writeUInt32BE
  have h : (0 : Int) ≤ n ∧ (n : Int) ≤ 4294967295 := by omega
  simp [h]

theorem readUInt32BE_bytes (n : Nat) (hn : n < 4294967296) :
    readUInt32BE [n / 16777216 % 256, n / 65536 % 256, n / 256 % 256, n % 256] = some n := by
  unfold readUInt32BE
  simp only [Option.some.injEq]
  omega

theorem writeUInt32BE_some (id : Nat) (content : Buffer)
    (h : writeUInt32BE (id : Int) = some content) :
    id < 4294967296 ∧ readUInt32BE content = some id := by
  have hid : id < 4294967296 := by
    by_contra hn
    unfold writeUInt32BE at h
    rw [if_neg (by omega)] at h
    cases h
  rw [writeUInt32BE_nat id hid] at h
  injection h with h
  subst h
  exact ⟨hid, readUInt32BE_bytes id hid⟩

/-! ## One admission -/

namespace Frontier

theorem toNumber_decimal (n : Nat) : toNumber (some (decimal n)) = (n : Int) := by
  simp only [toNumber, readInt_decimal]

theorem urlField_candidate (url : String) :
    urlField (candidate url).parsed = UrlField.value (Json.str url) := by
  simp [candidate, urlField, lookupLast]

theorem consumeWith_candidate (t : String → Option Bool) (f : Faults) (s : Store)
    (url : String) :
    consumeWith t f s (candidate url) =
      match t url with
      | some true => processUrl f s url
      | some false => ⟨s, [], Settle.unsettled, false⟩
      | none => ⟨s, [], Settle.unsettled, true⟩ := by
  unfold consumeWith
  rw [urlField_candidate]

theorem consumeWith_match (t : String → Option Bool) (f : Faults) (s : Store) (url : String)
    (hm : t url = some true) :
    consumeWith t f s (candidate url) = processUrl f s url := by
  rw [consumeWith_candidate, hm]

theorem ne_counterKey_of_absent (s : Store) (url : String) (n : Nat)
    (hc : s.get counterKey = some (decimal n)) (hu : s.get url = none) :
    url ≠ counterKey := by
  intro h
  rw [h, hc] at hu
  cases hu

theorem get_counter_bound (s : Store) (url : String) (n : Nat)
    (hc : s.get counterKey = some (decimal n)) (hu : s.get url = none) :
    ((s.set url (decimal n)).set (decimal n) url).get counterKey = some (decimal n) := by
  have h1 := ne_counterKey_of_absent s url n hc hu
  rw [Store.get_set_ne _ _ _ _ (Ne.symm (decimal_ne_counterKey n)),
    Store.get_set_ne _ _ _ _ (Ne.symm h1), hc]

theorem processUrl_fresh (s : Store) (url : String) (n : Nat) (hn : n < 4294967296)
    (hc : s.get counterKey = some (decimal n)) (hu : s.get url = none) :
    processUrl noFaults s url =
      ⟨boundStore s url n,
        [[n / 16777216 % 256, n / 65536 % 256, n / 256 % 256, n % 256]],
        Settle.ack, false⟩ := by
  have hk : ¬ s.keyExists url = 1 := by
    rw [Store.keyExists_eq_one]; simp [hu]
  have hi := Store.incr_decimal _ n (by unfold int64Max; omega) (get_counter_bound s url n hc hu)
  have hp : publishUrl (some (decimal n)) =
      some [n / 16777216 % 256, n / 65536 % 256, n / 256 % 256, n % 256] := by
    unfold publishUrl
    rw [toNumber_decimal n]
    exact writeUInt32BE_nat n hn
  unfold processUrl
  simp only [noFaults, hk, hc, hi, hp, boundStore, if_false, Bool.false_eq_true,
    Bool.or_self]

theorem processUrl_present (f : Faults) (s : Store) (url : String)
    (hf : f.existsErr = false) (hu : s.get url ≠ none) :
    processUrl f s url = ⟨s, [], Settle.ack, false⟩ := by
  have hk : s.keyExists url = 1 := (Store.keyExists_eq_one s url).2 hu
  unfold processUrl
  simp [hf, hk]

theorem processUrl_admitted (s : Store) (url : String) (n : Nat)
    (hc : s.get counterKey = some (decimal n))
    (ha : admitted (processUrl noFaults s url) = true) :
    s.get url = none ∧ n < 4294967296 := by
  by_cases hu : s.get url = none
  · refine ⟨hu, ?_⟩
    by_contra hn
    have hk : ¬ s.keyExists url = 1 := by
      rw [Store.keyExists_eq_one]; simp [hu]
    have hg := get_counter_bound s url n hc hu
    by_cases ho : (n : Int) + 1 ≤ int64Max
    · have hi := Store.incr_decimal _ n ho hg
      have hp : publishUrl (some (decimal n)) = none := by
        unfold publishUrl
        rw [toNumber_decimal n]
        unfold writeUInt32BE
        have h2 : ¬ ((0 : Int) ≤ n ∧ (n : Int) ≤ 4294967295) := by omega
        rw [if_neg h2]
      unfold processUrl at ha
      simp [noFaults, hk, hc, hi, hp, admitted] at ha
    · have hi := Store.incr_decimal_overflow _ n ho hg
      unfold processUrl at ha
      simp [noFaults, hk, hc, hi, admitted] at ha
  · rw [processUrl_present noFaults s url rfl hu] at ha
    simp [admitted] at ha

theorem get_url_boundStore (s : Store) (url : String) (n : Nat) (h : url ≠ counterKey) :
    (boundStore s url n).get url = some (decimal n) := by
  unfold boundStore
  rw [Store.get_set_ne _ _ _ _ h]
  by_cases hd : url = decimal n
  · rw [← hd, Store.get_set_self]
  · rw [Store.get_set_ne _ _ _ _ hd, Store.get_set_self]

theorem get_id_boundStore (s : Store) (url : String) (n : Nat) :
    (boundStore s url n).get (decimal n) = some url := by
  unfold boundStore
  rw [Store.get_set_ne _ _ _ _ (decimal_ne_counterKey n), Store.get_set_self]

theorem get_counter_boundStore (s : Store) (url : String) (n : Nat) :
    (boundStore s url n).get counterKey = some (decimal (n + 1)) := by
  unfold boundStore
  rw [Store.get_set_self]

/-! ## Sequences of admissions -/

theorem consumeWith_admitted (t : String → Option Bool) (s : Store) (m : Message) (n : Nat)
    (hc : s.get counterKey = some (decimal n))
    (ha : admitted (consumeWith t noFaults s m) = true) :
    ∃ url, urlField m.parsed = UrlField.value (Json.str url) ∧ t url = some true ∧
      s.get url = none ∧
      n < 4294967296 ∧
      consumeWith t noFaults s m =
        ⟨boundStore s url n,
          [[n / 16777216 % 256, n / 65536 % 256, n / 256 % 256, n % 256]],
          Settle.ack, false⟩ := by
  unfold consumeWith at ha ⊢
  split at ha
  · simp [admitted] at ha
  · rename_i url hurl
    split at ha
    · rename_i hm
      obtain ⟨hu, hn⟩ := processUrl_admitted s url n hc ha
      refine ⟨url, hurl, hm, hu, hn, ?_⟩
      exact processUrl_fresh s url n hn hc hu
    · simp [admitted] at ha
    · simp [admitted] at ha
  · simp [admitted] at ha

theorem consumeAllWith_cons (t : String → Option Bool) (s : Store) (m : Message) (ms : List Message) :
    consumeAllWith t s (m :: ms) =
      ((consumeAllWith t (consumeWith t noFaults s m).store ms).1,
        consumeWith t noFaults s m :: (consumeAllWith t (consumeWith t noFaults s m).store ms).2) :=
  rfl

theorem consumeAllWith_two (t : String → Option Bool) (s : Store) (a b : Message) :
    consumeAllWith t s [a, b] =
      ((consumeWith t noFaults (consumeWith t noFaults s a).store b).store,
        [consumeWith t noFaults s a, consumeWith t noFaults (consumeWith t noFaults s a).store b]) :=
  rfl

theorem consumeAllWith_append (t : String → Option Bool) (a b : List Message) :
    ∀ s : Store, consumeAllWith t s (a ++ b) =
      ((consumeAllWith t (consumeAllWith t s a).1 b).1,
        (consumeAllWith t s a).2 ++ (consumeAllWith t (consumeAllWith t s a).1 b).2) := by
  induction a with
  | nil => intro s; simp [consumeAllWith]
  | cons m ms ih =>
    intro s
    simp only [List.cons_append, consumeAllWith_cons, ih, List.cons_append]

theorem admitted_of_append (t : String → Option Bool) (s : Store) (a b : List Message)
    (hok : ∀ e ∈ (consumeAllWith t s (a ++ b)).2, admitted e = true) :
    ∀ e ∈ (consumeAllWith t s a).2, admitted e = true := by
  intro e he
  apply hok
  rw [consumeAllWith_append]
  exact List.mem_append_left _ he

theorem consumeAllWith_counter (t : String → Option Bool) (msgs : List Message) :
    ∀ (s : Store) (n : Nat), s.get counterKey = some (decimal n) →
      (∀ e ∈ (consumeAllWith t s msgs).2, admitted e = true) →
      (consumeAllWith t s msgs).1.get counterKey = some (decimal (n + msgs.length)) ∧
      (consumeAllWith t s msgs).2.map (fun e => e.toCrawl.map readUInt32BE)
        = (List.range msgs.length).map (fun j => [some (n + j)]) := by
  induction msgs with
  | nil => intro s n hc _; simpa [consumeAllWith] using hc
  | cons m ms ih =>
    intro s n hc hok
    rw [consumeAllWith_cons] at hok ⊢
    have ha : admitted (consumeWith t noFaults s m) = true := hok _ (List.mem_cons_self _ _)
    obtain ⟨url, _, _, _, hn, he⟩ := consumeWith_admitted t s m n hc ha
    have hc1 : (consumeWith t noFaults s m).store.get counterKey = some (decimal (n + 1)) := by
      rw [he]; exact get_counter_boundStore s url n
    obtain ⟨h1, h2⟩ := ih _ (n + 1) hc1 (fun e h => hok e (List.mem_cons_of_mem _ h))
    refine ⟨?_, ?_⟩
    · rw [h1, List.length_cons]
      congr 2
      omega
    · simp only [List.map_cons, h2, List.length_cons, List.range_succ_eq_map, List.map_map]
      rw [he]
      simp only [List.map_cons, List.map_nil, readUInt32BE_bytes n hn, Nat.add_zero,
        List.cons.injEq, true_and]
      apply List.map_congr_left
      intro j _
      simp only [Function.comp, Nat.succ_eq_add_one]
      rw [show n + 1 + j = n + (j + 1) by omega]

theorem consumeAllWith_frame (t : String → Option Bool) (urls : List String) :
    ∀ (s : Store) (n : Nat), s.get counterKey = some (decimal n) →
      (∀ e ∈ (consumeAllWith t s (urls.map candidate)).2, admitted e = true) →
      (∀ u ∈ urls, ∀ j, j < urls.length → u ≠ decimal (n + j)) →
      (∀ k, s.get k ≠ none → k ≠ counterKey →
        (∀ j, j < urls.length → k ≠ decimal (n + j)) →
        (consumeAllWith t s (urls.map candidate)).1.get k = s.get k) ∧
      (∀ j u, urls[j]? = some u →
        (consumeAllWith t s (urls.map candidate)).1.get (decimal (n + j)) = some u ∧
        (consumeAllWith t s (urls.map candidate)).1.get u = some (decimal (n + j))) := by
  induction urls with
  | nil =>
    intro s n _ _ _
    exact ⟨fun k _ _ _ => rfl, fun j u h => by simp at h⟩
  | cons a rest ih =>
    intro s n hc hok hdec
    rw [List.map_cons, consumeAllWith_cons] at hok ⊢
    have ha : admitted (consumeWith t noFaults s (candidate a)) = true :=
      hok _ (List.mem_cons_self _ _)
    obtain ⟨url, hurl, _, hu, hn, he⟩ := consumeWith_admitted t s (candidate a) n hc ha
    rw [urlField_candidate] at hurl
    have hau : a = url := by
      injection hurl with h1
      injection h1
    subst hau
    have hne : a ≠ counterKey := ne_counterKey_of_absent s a n hc hu
    have hc1 : (boundStore s a n).get counterKey = some (decimal (n + 1)) :=
      get_counter_boundStore s a n
    have hdec1 : ∀ u ∈ rest, ∀ j, j < rest.length → u ≠ decimal (n + 1 + j) := by
      intro u hmem j hj
      have := hdec u (List.mem_cons_of_mem _ hmem) (j + 1) (by simp; omega)
      rwa [show n + (j + 1) = n + 1 + j by omega] at this
    rw [he] at hok ⊢
    obtain ⟨hframe, hbind⟩ := ih (boundStore s a n) (n + 1) hc1
      (fun e h => hok e (List.mem_cons_of_mem _ h)) hdec1
    refine ⟨?_, ?_⟩
    · intro k hk hkc hkd
      have hka : k ≠ a := by
        intro h; rw [h] at hk; exact hk hu
      have hkn : k ≠ decimal n := by
        have := hkd 0 (by simp)
        simpa using this
      have hs1 : (boundStore s a n).get k = s.get k := by
        unfold boundStore
        rw [Store.get_set_ne _ _ _ _ hkc, Store.get_set_ne _ _ _ _ hkn,
          Store.get_set_ne _ _ _ _ hka]
      rw [← hs1]
      apply hframe k (by rw [hs1]; exact hk) hkc
      intro j hj
      have := hkd (j + 1) (by simp; omega)
      rwa [show n + (j + 1) = n + 1 + j by omega] at this
    · intro j u hj
      cases j with
      | zero =>
        simp only [List.getElem?_cons_zero, Option.some.injEq] at hj
        subst hj
        have h1 : (boundStore s a n).get (decimal n) = some a := get_id_boundStore s a n
        have h2 : (boundStore s a n).get a = some (decimal n) := get_url_boundStore s a n hne
        have f1 := hframe (decimal n) (by rw [h1]; simp) (decimal_ne_counterKey n)
          (fun j _ h => by have := decimal_injective _ _ h; omega)
        have f2 := hframe a (by rw [h2]; simp) hne
          (fun j hj => by
            have := hdec a (List.mem_cons_self _ _) (j + 1) (by simp; omega)
            rwa [show n + (j + 1) = n + 1 + j by omega] at this)
        simp only [Nat.add_zero]
        exact ⟨by rw [f1, h1], by rw [f2, h2]⟩
      | succ j =>
        simp only [List.getElem?_cons_succ] at hj
        have := hbind j u hj
        rwa [show n + 1 + j = n + (j + 1) by omega] at this

/-! ## The claims about the frontier -/

/-- C1, as amended: in a store whose counter holds `n` with `n < 2^32` and in
which `url` is absent, with no store call failing, consuming a candidate that
passes the host test, whatever the configured host, leaves `url` mapped to
`n`, `n` mapped to `url` and the counter at `n + 1`, publishes exactly one
fetch job, which reads back as `n`, and acknowledges the message. -/
theorem fresh_admission (t : String → Option Bool) (url : String) (s : Store) (n : Nat)
    (hn : n < 4294967296) (hc : s.get counterKey = some (decimal n))
    (hu : s.get url = none) (hm : t url = some true) :
    (consumeWith t noFaults s (candidate url)).store.get url = some (decimal n) ∧
    (consumeWith t noFaults s (candidate url)).store.get (decimal n) = some url ∧
    (consumeWith t noFaults s (candidate url)).store.get counterKey
      = some (decimal (n + 1)) ∧
    (consumeWith t noFaults s (candidate url)).toCrawl.map readUInt32BE = [some n] ∧
    (consumeWith t noFaults s (candidate url)).settle = Settle.ack ∧
    (consumeWith t noFaults s (candidate url)).raised = false := by
  rw [consumeWith_match t noFaults s url hm, processUrl_fresh s url n hn hc hu]
  refine ⟨get_url_boundStore s url n (ne_counterKey_of_absent s url n hc hu),
    get_id_boundStore s url n, get_counter_boundStore s url n, ?_, rfl, rfl⟩
  simp only [List.map_cons, List.map_nil, readUInt32BE_bytes n hn]

/-- Scenario 1 of the specification: the seed `http://site.test/` under the host filter
`site.test`, a plain host, with the counter at 1 gets id 1, a fetch job for
1, and the counter becomes 2. -/
theorem fresh_admission_witness :
    plainHost "site.test" = true ∧
    (consume "site.test" noFaults [(counterKey, "1")] (candidate "http://site.test/")).store.get
        "http://site.test/" = some "1" ∧
    (consume "site.test" noFaults [(counterKey, "1")] (candidate "http://site.test/")).store.get
        "1" = some "http://site.test/" ∧
    (consume "site.test" noFaults [(counterKey, "1")] (candidate "http://site.test/")).store.get
        counterKey = some "2" ∧
    (consume "site.test" noFaults [(counterKey, "1")]
        (candidate "http://site.test/")).toCrawl.map readUInt32BE = [some 1] ∧
    (consume "site.test" noFaults [(counterKey, "1")] (candidate "http://site.test/")).settle
        = Settle.ack ∧
    (consume "site.test" noFaults [(counterKey, "1")] (candidate "http://site.test/")).raised
        = false :=
  ⟨by decide,
    fresh_admission (hostTest "site.test") "http://site.test/" [(counterKey, "1")] 1
      (by decide) (by decide) (by decide) (by decide)⟩

/-- C1 as stated fails when the counter holds 2^32: the host `site.test` is
plain, no store call fails, the url is absent and matches the host, both
bindings are written and the counter advances, but no fetch job is published,
because the id does not fit the 4-byte job. -/
theorem fresh_admission_counterexample :
    plainHost "site.test" = true ∧
    Store.get [(counterKey, "4294967296")] counterKey = some (decimal 4294967296) ∧
    Store.get [(counterKey, "4294967296")] "http://site.test/" = none ∧
    matchesHost "site.test" "http://site.test/" = true ∧
    (consume "site.test" noFaults [(counterKey, "4294967296")]
        (candidate "http://site.test/")).store.get counterKey = some (decimal 4294967297) ∧
    (consume "site.test" noFaults [(counterKey, "4294967296")]
        (candidate "http://site.test/")).toCrawl = [] := by
  decide

/-- C2: for a url that passes the host test, whatever the configured host:
in every store in which the url is already a key, the counter key included,
`consume` returns the store as it was, publishes no fetch job and
acknowledges, whatever the other store calls would do. Hence a url submitted
twice in sequence, fresh the first time with the counter at `n < 2^32`, is
bound once, to `n`: the second message leaves the store of the first
untouched, and the two messages together publish the one fetch job of the
first. -/
theorem idempotent_admission (t : String → Option Bool) (url : String)
    (hm : t url = some true) :
    (∀ (f : Faults) (s : Store), f.existsErr = false → s.get url ≠ none →
      (consumeWith t f s (candidate url)).store = s ∧
      (consumeWith t f s (candidate url)).toCrawl = [] ∧
      (consumeWith t f s (candidate url)).settle = Settle.ack ∧
      (consumeWith t f s (candidate url)).raised = false) ∧
    (∀ (s0 : Store) (n : Nat), n < 4294967296 → s0.get counterKey = some (decimal n) →
      s0.get url = none →
      (consumeAllWith t s0 [candidate url, candidate url]).1
        = (consumeWith t noFaults s0 (candidate url)).store ∧
      (consumeAllWith t s0 [candidate url, candidate url]).1.get url = some (decimal n) ∧
      ((consumeAllWith t s0 [candidate url, candidate url]).2.map
          (fun e => e.toCrawl.map readUInt32BE)).flatten = [some n] ∧
      (consumeAllWith t s0 [candidate url, candidate url]).2.map (fun e => e.settle)
        = [Settle.ack, Settle.ack]) := by
  refine ⟨?_, ?_⟩
  · intro f s hf hu
    rw [consumeWith_match t f s url hm, processUrl_present f s url hf hu]
    exact ⟨rfl, rfl, rfl, rfl⟩
  · intro s0 n hn hc hu0
    have hne := ne_counterKey_of_absent s0 url n hc hu0
    have hb : (boundStore s0 url n).get url ≠ none := by
      rw [get_url_boundStore s0 url n hne]; simp
    have h1 : consumeWith t noFaults s0 (candidate url) =
        ⟨boundStore s0 url n,
          [[n / 16777216 % 256, n / 65536 % 256, n / 256 % 256, n % 256]],
          Settle.ack, false⟩ := by
      rw [consumeWith_match t noFaults s0 url hm, processUrl_fresh s0 url n hn hc hu0]
    have h2 : consumeWith t noFaults (boundStore s0 url n) (candidate url) =
        ⟨boundStore s0 url n, [], Settle.ack, false⟩ := by
      rw [consumeWith_match t noFaults _ url hm, processUrl_present noFaults _ url rfl hb]
    rw [consumeAllWith_two, h1, h2]
    refine ⟨rfl, get_url_boundStore s0 url n hne, ?_, rfl⟩
    simp [readUInt32BE_bytes n hn]

/-- Scenario 2 of the specification, under the plain host `site.test`: resubmitting
`http://site.test/` publishes no new fetch job and leaves the counter and the
mapping with id 1 as they were; so does a candidate that is the counter key
itself, under the host `urlIdSeq`. -/
theorem idempotent_admission_witness :
    plainHost "site.test" = true ∧
    ((consume "site.test" noFaults
        [(counterKey, "2"), ("http://site.test/", "1"), ("1", "http://site.test/")]
        (candidate "http://site.test/")).store
      = [(counterKey, "2"), ("http://site.test/", "1"), ("1", "http://site.test/")] ∧
    (consume "site.test" noFaults
        [(counterKey, "2"), ("http://site.test/", "1"), ("1", "http://site.test/")]
        (candidate "http://site.test/")).toCrawl = [] ∧
    (consume "site.test" noFaults
        [(counterKey, "2"), ("http://site.test/", "1"), ("1", "http://site.test/")]
        (candidate "http://site.test/")).settle = Settle.ack ∧
    (consume "site.test" noFaults
        [(counterKey, "2"), ("http://site.test/", "1"), ("1", "http://site.test/")]
        (candidate "http://site.test/")).raised = false) ∧
    ((consumeAll "site.test" [(counterKey, "1")]
        [candidate "http://site.test/", candidate "http://site.test/"]).1
      = (consume "site.test" noFaults [(counterKey, "1")] (candidate "http://site.test/")).store ∧
    (consumeAll "site.test" [(counterKey, "1")]
        [candidate "http://site.test/", candidate "http://site.test/"]).1.get
        "http://site.test/" = some "1" ∧
    ((consumeAll "site.test" [(counterKey, "1")]
        [candidate "http://site.test/", candidate "http://site.test/"]).2.map
        (fun e => e.toCrawl.map readUInt32BE)).flatten = [some 1] ∧
    (consumeAll "site.test" [(counterKey, "1")]
        [candidate "http://site.test/", candidate "http://site.test/"]).2.map
        (fun e => e.settle) = [Settle.ack, Settle.ack]) ∧
    (consume "urlIdSeq" noFaults [(counterKey, "2")] (candidate "urlIdSeq")).settle
      = Settle.ack :=
  ⟨by decide,
    (idempotent_admission (hostTest "site.test") "http://site.test/" (by decide)).1 noFaults
      [(counterKey, "2"), ("http://site.test/", "1"), ("1", "http://site.test/")]
      rfl (by decide),
    (idempotent_admission (hostTest "site.test") "http://site.test/" (by decide)).2
      [(counterKey, "1")] 1 (by decide) (by decide) (by decide),
    ((idempotent_admission (hostTest "urlIdSeq") "urlIdSeq" (by decide)).1 noFaults
      [(counterKey, "2")] rfl (by decide)).2.2.1⟩

/-- C3, as amended: start from a store holding only the counter, at `n0`, and
let one coordinator admit the urls `pre ++ post` one after the other,
whatever the configured host, every admission successful and no store call
failing. Provided no url of the run is the decimal text of an id assigned
during the run, the ids are assigned in order from `n0`, and the url `u` at
position `j` of `pre` is bound both ways to the id `n0 + j` once `pre` has
been admitted, and still is after the later admissions `post`. -/
theorem bindings_consistent (t : String → Option Bool) (n0 : Nat) (pre post : List String)
    (hdec : ∀ u ∈ pre ++ post, ∀ j, j < (pre ++ post).length → u ≠ decimal (n0 + j))
    (hok : ∀ e ∈ (consumeAllWith t [(counterKey, decimal n0)]
      ((pre ++ post).map candidate)).2, admitted e = true)
    (j : Nat) (u : String) (hj : pre[j]? = some u) :
    (consumeAllWith t [(counterKey, decimal n0)] ((pre ++ post).map candidate)).2.map
        (fun e => e.toCrawl.map readUInt32BE)
      = (List.range (pre ++ post).length).map (fun i => [some (n0 + i)]) ∧
    (consumeAllWith t [(counterKey, decimal n0)] (pre.map candidate)).1.get
        (decimal (n0 + j)) = some u ∧
    (consumeAllWith t [(counterKey, decimal n0)] (pre.map candidate)).1.get u
      = some (decimal (n0 + j)) ∧
    (consumeAllWith t [(counterKey, decimal n0)] ((pre ++ post).map candidate)).1.get
        (decimal (n0 + j)) = some u ∧
    (consumeAllWith t [(counterKey, decimal n0)] ((pre ++ post).map candidate)).1.get u
      = some (decimal (n0 + j)) := by
  have hc : Store.get [(counterKey, decimal n0)] counterKey = some (decimal n0) := by
    simp [Store.get]
  have hokpre : ∀ e ∈ (consumeAllWith t [(counterKey, decimal n0)] (pre.map candidate)).2,
      admitted e = true := by
    apply admitted_of_append t _ (pre.map candidate) (post.map candidate)
    rw [← List.map_append]
    exact hok
  have hdecpre : ∀ u ∈ pre, ∀ j, j < pre.length → u ≠ decimal (n0 + j) := by
    intro v hv i hi
    exact hdec v (List.mem_append_left _ hv) i (by rw [List.length_append]; omega)
  have hjlt : j < pre.length := by
    by_contra h
    rw [List.getElem?_eq_none (by omega)] at hj
    cases hj
  have hj2 : (pre ++ post)[j]? = some u := by
    rw [List.getElem?_append_left hjlt]
    exact hj
  have hcount := (consumeAllWith_counter t ((pre ++ post).map candidate) _ n0 hc hok).2
  rw [List.length_map] at hcount
  have h1 := (consumeAllWith_frame t pre _ n0 hc hokpre hdecpre).2 j u hj
  have h2 := (consumeAllWith_frame t (pre ++ post) _ n0 hc hok hdec).2 j u hj2
  exact ⟨hcount, h1.1, h1.2, h2.1, h2.2⟩

/-- An instance of C3 under the plain host `site.test`: `http://site.test/`
admitted with id 1 keeps both bindings when `http://site.test/about` is
admitted after it. -/
theorem bindings_consistent_witness :
    plainHost "site.test" = true ∧
    (consumeAll "site.test" [(counterKey, "1")]
        [candidate "http://site.test/", candidate "http://site.test/about"]).2.map
        (fun e => e.toCrawl.map readUInt32BE) = [[some 1], [some 2]] ∧
    (consumeAll "site.test" [(counterKey, "1")] [candidate "http://site.test/"]).1.get "1"
      = some "http://site.test/" ∧
    (consumeAll "site.test" [(counterKey, "1")] [candidate "http://site.test/"]).1.get
        "http://site.test/" = some "1" ∧
    (consumeAll "site.test" [(counterKey, "1")]
        [candidate "http://site.test/", candidate "http://site.test/about"]).1.get "1"
      = some "http://site.test/" ∧
    (consumeAll "site.test" [(counterKey, "1")]
        [candidate "http://site.test/", candidate "http://site.test/about"]).1.get
        "http://site.test/" = some "1" :=
  ⟨by decide,
    bindings_consistent (hostTest "site.test") 1 ["http://site.test/"]
      ["http://site.test/about"] (by decide) (by decide) 0 "http://site.test/" rfl⟩

/-- C3 as stated fails in the flat namespace. Under the plain host
`10.0.0.1`, from a store holding only the counter at 10000000, the candidates
`10000001` and `http://10.0.0.1/` are both admitted, with the ids 10000000
and 10000001. The url `10000001` is mapped to its id after its own admission;
the admission of the second url writes the id key `10000001`, which is that
url, and the url no longer resolves to its id. -/
theorem bindings_consistent_counterexample :
    plainHost "10.0.0.1" = true ∧
    (consumeAll "10.0.0.1" [(counterKey, "10000000")]
        [candidate "10000001", candidate "http://10.0.0.1/"]).2.map
        (fun e => e.toCrawl.map readUInt32BE) = [[some 10000000], [some 10000001]] ∧
    (consumeAll "10.0.0.1" [(counterKey, "10000000")] [candidate "10000001"]).1.get
        "10000001" = some "10000000" ∧
    (consumeAll "10.0.0.1" [(counterKey, "10000000")]
        [candidate "10000001", candidate "http://10.0.0.1/"]).1.get
        "10000001" = some "http://10.0.0.1/" := by
  decide

/-- C4: start from a store without the counter, which startup seeds to 1 (a
counter already present is left as it is). After `k` successful admissions by
one coordinator, whatever the configured host, the counter is `k + 1` and the
ids published are 1, 2, .., `k` in admission order; after each `m` of them
the counter is `m + 1`, one more than the highest id assigned so far. -/
theorem monotonic_ids (t : String → Option Bool) (s0 : Store) (msgs : List Message)
    (h0 : s0.get counterKey = none)
    (hok : ∀ e ∈ (consumeAllWith t (connectToRedis s0) msgs).2, admitted e = true) :
    (connectToRedis s0).get counterKey = some (decimal 1) ∧
    (consumeAllWith t (connectToRedis s0) msgs).1.get counterKey
      = some (decimal (msgs.length + 1)) ∧
    (consumeAllWith t (connectToRedis s0) msgs).2.map (fun e => e.toCrawl.map readUInt32BE)
      = (List.range msgs.length).map (fun j => [some (j + 1)]) ∧
    (∀ m, m ≤ msgs.length →
      (consumeAllWith t (connectToRedis s0) (msgs.take m)).1.get counterKey
        = some (decimal (m + 1)) ∧
      (consumeAllWith t (connectToRedis s0) (msgs.take m)).2.map
          (fun e => e.toCrawl.map readUInt32BE)
        = (List.range m).map (fun j => [some (j + 1)])) ∧
    (∀ (s : Store) (v : String), s.get counterKey = some v → connectToRedis s = s) := by
  have hseed : (connectToRedis s0).get counterKey = some (decimal 1) := by
    have hk : ¬ s0.keyExists counterKey = 1 := by
      rw [Store.keyExists_eq_one]; simp [h0]
    unfold connectToRedis
    rw [if_neg hk, Store.get_set_self]
    rfl
  have key : ∀ ms : List Message,
      (∀ e ∈ (consumeAllWith t (connectToRedis s0) ms).2, admitted e = true) →
      (consumeAllWith t (connectToRedis s0) ms).1.get counterKey
        = some (decimal (ms.length + 1)) ∧
      (consumeAllWith t (connectToRedis s0) ms).2.map (fun e => e.toCrawl.map readUInt32BE)
        = (List.range ms.length).map (fun j => [some (j + 1)]) := by
    intro ms hms
    obtain ⟨h1, h2⟩ := consumeAllWith_counter t ms _ 1 hseed hms
    refine ⟨by rw [h1, Nat.add_comm], ?_⟩
    rw [h2]
    apply List.map_congr_left
    intro j _
    rw [Nat.add_comm]
  refine ⟨hseed, (key msgs hok).1, (key msgs hok).2, ?_, ?_⟩
  · intro m hm
    have hpre : ∀ e ∈ (consumeAllWith t (connectToRedis s0) (msgs.take m)).2,
        admitted e = true := by
      apply admitted_of_append t _ (msgs.take m) (msgs.drop m)
      rw [List.take_append_drop]
      exact hok
    have := key (msgs.take m) hpre
    rwa [List.length_take, Nat.min_eq_left hm] at this
  · intro s v hv
    have hk : s.keyExists counterKey = 1 := by
      rw [Store.keyExists_eq_one, hv]; simp
    unfold connectToRedis
    rw [if_pos hk]

/-- An instance of C4 under the plain host `site.test`: from the empty store,
two admissions get the ids 1 and 2 and leave the counter at 3. -/
theorem monotonic_ids_witness :
    plainHost "site.test" = true ∧
    (connectToRedis []).get counterKey = some "1" ∧
    (consumeAll "site.test" (connectToRedis [])
        [candidate "http://site.test/", candidate "http://site.test/about"]).1.get counterKey
      = some "3" ∧
    (consumeAll "site.test" (connectToRedis [])
        [candidate "http://site.test/", candidate "http://site.test/about"]).2.map
        (fun e => e.toCrawl.map readUInt32BE) = [[some 1], [some 2]] :=
  have h := monotonic_ids (hostTest "site.test") []
    [candidate "http://site.test/", candidate "http://site.test/about"] rfl (by decide)
  ⟨by decide, h.1, h.2.1, h.2.2.1⟩

/-- C5, the code at the failing input: when `INCR urlIdSeq` fails, both
bindings have been written, no fetch job is published, and the message is
neither acknowledged nor negatively acknowledged. A failure of the existence
check or of the counter read is negatively acknowledged. -/
theorem incr_failure_unsettled :
    (consume "site.test" ⟨false, false, false, false, true⟩ [(counterKey, "1")]
        (candidate "http://site.test/")).settle = Settle.unsettled ∧
    (consume "site.test" ⟨false, false, false, false, true⟩ [(counterKey, "1")]
        (candidate "http://site.test/")).toCrawl = [] ∧
    (consume "site.test" ⟨false, false, false, false, true⟩ [(counterKey, "1")]
        (candidate "http://site.test/")).raised = false ∧
    (consume "site.test" ⟨false, false, false, false, true⟩ [(counterKey, "1")]
        (candidate "http://site.test/")).store
      = [(counterKey, "1"), ("http://site.test/", "1"), ("1", "http://site.test/")] ∧
    (consume "site.test" ⟨true, false, false, false, false⟩ [(counterKey, "1")]
        (candidate "http://site.test/")).settle = Settle.nack ∧
    (consume "site.test" ⟨false, true, false, false, false⟩ [(counterKey, "1")]
        (candidate "http://site.test/")).settle = Settle.nack := by
  decide

/-- C6, the code at the failing input: the candidate `http://other.test/page`
does not match the host `site.test`, and `consume` leaves its message neither
acknowledged nor negatively acknowledged. -/
theorem host_mismatch_unsettled :
    matchesHost "site.test" "http://other.test/page" = false ∧
    (consume "site.test" noFaults [(counterKey, "1")]
        (candidate "http://other.test/page")).settle = Settle.unsettled := by
  decide

/-- C7: a candidate whose url does not pass the host test, whatever the
configured host and whether the test gives `null` or cannot be made, writes
no store key and publishes no fetch job, whichever store calls would fail. -/
theorem host_filter_frame (t : String → Option Bool) (url : String) (f : Faults) (s : Store)
    (hm : t url ≠ some true) :
    (consumeWith t f s (candidate url)).store = s ∧
    (consumeWith t f s (candidate url)).toCrawl = [] := by
  rw [consumeWith_candidate]
  split
  · rename_i h
    exact absurd h hm
  · exact ⟨rfl, rfl⟩
  · exact ⟨rfl, rfl⟩

/-- Scenario 3 of the specification: `http://other.test/page` under the plain host
`site.test` is discarded, no id is assigned and the counter stays at 1. -/
theorem host_filter_frame_witness :
    plainHost "site.test" = true ∧
    matchesHost "site.test" "http://other.test/page" = false ∧
    (consume "site.test" noFaults [(counterKey, "1")]
        (candidate "http://other.test/page")).store = [(counterKey, "1")] ∧
    (consume "site.test" noFaults [(counterKey, "1")]
        (candidate "http://other.test/page")).toCrawl = [] :=
  ⟨by decide, by decide,
    host_filter_frame (hostTest "site.test") "http://other.test/page" noFaults
      [(counterKey, "1")] (by decide)⟩

/-- C8, the code at the failing input: under the host `site.test` the url
`http://site.test.evil.example/`, whose host is another site, matches the
filter and is admitted with id 1; so does `http://siteXtest/`, the dot of the
host being read as a wildcard. -/
theorem host_boundary_escape :
    plainHost "site.test" = true ∧
    matchesHost "site.test" "http://site.test.evil.example/" = true ∧
    (consume "site.test" noFaults [(counterKey, "1")]
        (candidate "http://site.test.evil.example/")).store.get
        "http://site.test.evil.example/" = some "1" ∧
    (consume "site.test" noFaults [(counterKey, "1")]
        (candidate "http://site.test.evil.example/")).toCrawl = [[0, 0, 0, 1]] ∧
    matchesHost "site.test" "http://siteXtest/" = true := by
  decide

end Frontier

/-! ## The claims about the parser and the fetcher -/

/-- C9, the code at the failing input: the page of id 1, stored under the url
`http://site.test/`, has the links `/about` and `http://external.test/`. The
root-relative link is published with the whole stored url in front of it,
`http://site.test//about`, not with its origin in front,
`http://site.test/about`; the other link is published as it is. -/
theorem parseLinks_root_relative :
    Parser.parseLinks ⟨false, fun _ => some [some "/about", some "http://external.test/"]⟩
        [(counterKey, "2"), ("http://site.test/", "1"), ("1", "http://site.test/")] 1
      = ⟨[candidate "http://site.test//about", candidate "http://external.test/"], false⟩ ∧
    "http://site.test//about" ≠ "http://site.test/about" := by
  refine ⟨?_, by decide⟩
  rfl

/-- C10, as amended: for the fetch job of `id`, when the store lookup fails
the handler is rejected and emits nothing; when it succeeds the handler does
not raise, a failed retrieval emits neither message, and a successful
retrieval whose saved page has a readable size emits exactly the parse job of
`id` and the size event of `id`. -/
theorem fetch_handoff (env : Fetcher.Env) (s : Store) (id : Nat) (content : Buffer)
    (hjob : writeUInt32BE (id : Int) = some content) :
    (env.getErr = true →
      (Fetcher.consume env s content).raised = true ∧
      (Fetcher.consume env s content).toParse = [] ∧
      (Fetcher.consume env s content).toAnalyze = []) ∧
    (env.getErr = false →
      (Fetcher.consume env s content).raised = false ∧
      (env.scrape id (s.get (decimal id)) = false →
        (Fetcher.consume env s content).toParse = [] ∧
        (Fetcher.consume env s content).toAnalyze = []) ∧
      (∀ size, env.scrape id (s.get (decimal id)) = true → env.statSize id = some size →
        (Fetcher.consume env s content).toParse = [content] ∧
        (Fetcher.consume env s content).toAnalyze =
          [Json.obj [("dataType", Json.str "FILE_SIZE"),
            ("payload", Json.obj [("size", Json.num size), ("urlId", Json.num id)])]])) := by
  obtain ⟨_, hread⟩ := writeUInt32BE_some id content hjob
  have hpub : Fetcher.publishUrl id = some content := hjob
  refine ⟨?_, ?_⟩
  · intro hg
    unfold Fetcher.consume
    simp [hread, hg]
  · intro hg
    refine ⟨?_, ?_, ?_⟩
    · unfold Fetcher.consume
      simp only [hread, hg, hpub]
      by_cases hs : env.scrape id (s.get (decimal id)) = true
      · simp only [hs, if_true, Bool.false_eq_true, if_false]
        cases hst : Fetcher.publishPageSize env id <;> rfl
      · simp [hs]
    · intro hs
      unfold Fetcher.consume
      simp [hread, hg, hs]
    · intro size hs hst
      have hsize : Fetcher.publishPageSize env id =
          some (Json.obj [("dataType", Json.str "FILE_SIZE"),
            ("payload", Json.obj [("size", Json.num size), ("urlId", Json.num id)])]) := by
        unfold Fetcher.publishPageSize
        rw [hst]
      unfold Fetcher.consume
      simp [hread, hg, hs, hpub, hsize]

/-- Scenario 5 of the specification and its counterpart: the fetch of id 7 fails and nothing
is emitted; when it succeeds with a page of 2048 bytes the parse job and the
size event of id 7 are emitted. Neither run raises. -/
theorem fetch_handoff_witness :
    (Fetcher.consume ⟨false, fun _ _ => false, fun _ => none⟩
        [("7", "http://site.test/x")] [0, 0, 0, 7]).raised = false ∧
    (Fetcher.consume ⟨false, fun _ _ => false, fun _ => none⟩
        [("7", "http://site.test/x")] [0, 0, 0, 7]).toParse = [] ∧
    (Fetcher.consume ⟨false, fun _ _ => false, fun _ => none⟩
        [("7", "http://site.test/x")] [0, 0, 0, 7]).toAnalyze = [] ∧
    (Fetcher.consume ⟨false, fun _ _ => true, fun _ => some 2048⟩
        [("7", "http://site.test/x")] [0, 0, 0, 7]).raised = false ∧
    (Fetcher.consume ⟨false, fun _ _ => true, fun _ => some 2048⟩
        [("7", "http://site.test/x")] [0, 0, 0, 7]).toParse = [[0, 0, 0, 7]] ∧
    (Fetcher.consume ⟨false, fun _ _ => true, fun _ => some 2048⟩
        [("7", "http://site.test/x")] [0, 0, 0, 7]).toAnalyze =
      [Json.obj [("dataType", Json.str "FILE_SIZE"),
        ("payload", Json.obj [("size", Json.num 2048), ("urlId", Json.num 7)])]] :=
  have hfail := (fetch_handoff ⟨false, fun _ _ => false, fun _ => none⟩
    [("7", "http://site.test/x")] 7 [0, 0, 0, 7] (by decide)).2 rfl
  have hok := (fetch_handoff ⟨false, fun _ _ => true, fun _ => some 2048⟩
    [("7", "http://site.test/x")] 7 [0, 0, 0, 7] (by decide)).2 rfl
  ⟨hfail.1, (hfail.2.1 rfl).1, (hfail.2.1 rfl).2, hok.1,
    (hok.2.2 2048 rfl rfl).1, (hok.2.2 2048 rfl rfl).2⟩

/-- C10 as stated fails when the store lookup fails: the handler of the fetch
job of id 7 is rejected, that is, it raises. -/
theorem fetch_handoff_counterexample :
    writeUInt32BE 7 = some [0, 0, 0, 7] ∧
    (Fetcher.consume ⟨true, fun _ _ => true, fun _ => some 2048⟩
        [("7", "http://site.test/x")] [0, 0, 0, 7]).raised = true := by
  decide

namespace Frontier

/-! ## Interleavings of two coordinators -/

theorem stepPair_swap (url : String) (p : Pair) (who : Bool) :
    (stepPair url p who).swap = stepPair url p.swap (!who) := by
  cases who <;> rfl

theorem runPair_swap (url : String) (sched : List Bool) :
    ∀ p : Pair, (runPair url p sched).swap = runPair url p.swap (sched.map (fun b => !b)) := by
  induction sched with
  | nil => intro p; rfl
  | cons who rest ih =>
    intro p
    simp only [runPair, List.map_cons]
    rw [ih, stepPair_swap]

theorem runPair_append (url : String) (a b : List Bool) :
    ∀ p : Pair, runPair url p (a ++ b) = runPair url (runPair url p a) b := by
  induction a with
  | nil => intro p; rfl
  | cons who rest ih =>
    intro p
    rw [List.cons_append]
    simp only [runPair]
    exact ih _

theorem publishUrl_decimal (m : Nat) (hm : m < 4294967296) :
    publishUrl (some (decimal m)) = some (jobBytes m) := by
  unfold publishUrl
  rw [toNumber_decimal m]
  exact writeUInt32BE_nat m hm

theorem readUInt32BE_jobBytes (m : Nat) (hm : m < 4294967296) :
    readUInt32BE (jobBytes m) = some m :=
  readUInt32BE_bytes m hm

/-- A coordinator running alone does what `processUrl` does. -/
theorem solo_eq_processUrl (url : String) (s : Store) :
    (runPair url ⟨s, Worker.start, Worker.start⟩ [false, false, false, false, false]).store
      = (processUrl noFaults s url).store ∧
    (runPair url ⟨s, Worker.start, Worker.start⟩ [false, false, false, false, false]).first.toCrawl
      = (processUrl noFaults s url).toCrawl ∧
    (runPair url ⟨s, Worker.start, Worker.start⟩ [false, false, false, false, false]).first.settle
      = (processUrl noFaults s url).settle ∧
    (runPair url ⟨s, Worker.start, Worker.start⟩ [false, false, false, false, false]).first.raised
      = (processUrl noFaults s url).raised := by
  unfold processUrl
  simp only [runPair, stepPair, Worker.start, noFaults, Bool.false_eq_true, if_false]
  by_cases hk : s.keyExists url = 1
  · simp [stepWorker, hk]
  · cases hg : s.get counterKey with
    | none => simp [stepWorker, hk, hg]
    | some reply =>
      cases hi : ((s.set url reply).set reply url).incr counterKey with
      | none => simp [stepWorker, hk, hg, hi]
      | some r =>
        obtain ⟨i, s3⟩ := r
        cases hp : publishUrl (some reply) with
        | none => simp [stepWorker, hk, hg, hi, hp]
        | some buf => simp [stepWorker, hk, hg, hi, hp]

theorem serialInv_step (s : Store) (url : String) (n : Nat) (p : Pair) (who : Bool)
    (hn : n < 4294967296) (hc : s.get counterKey = some (decimal n)) (hu : s.get url = none)
    (h : SerialInv s url n p) : SerialInv s url n (stepPair url p who) := by
  have hne := ne_counterKey_of_absent s url n hc hu
  have hS1 : (s.set url (decimal n)).keyExists url = 1 := by
    rw [Store.keyExists_eq_one, Store.get_set_self]; simp
  have hS2 : ((s.set url (decimal n)).set (decimal n) url).keyExists url = 1 := by
    rw [Store.keyExists_eq_one]
    by_cases hd : url = decimal n
    · rw [← hd, Store.get_set_self]; simp
    · rw [Store.get_set_ne _ _ _ _ hd, Store.get_set_self]; simp
  have hS3 : (boundStore s url n).keyExists url = 1 := by
    rw [Store.keyExists_eq_one, get_url_boundStore s url n hne]; simp
  have hincr := Store.incr_decimal _ n (by unfold int64Max; omega)
    (get_counter_bound s url n hc hu)
  have hpub := publishUrl_decimal n hn
  obtain ⟨store, first, second⟩ := p
  obtain ⟨hsec, hfirst⟩ := h
  simp only at hsec hfirst
  cases who
  · rcases hfirst with ⟨hf, hs⟩ | ⟨hf, hs⟩ | ⟨hf, hs⟩ <;> subst hf <;> subst hs
    · exact ⟨hsec, Or.inr (Or.inl ⟨rfl, rfl⟩)⟩
    · refine ⟨hsec, Or.inr (Or.inr ?_)⟩
      simp [stepPair, stepWorker, hincr, hpub, boundStore]
    · exact ⟨hsec, Or.inr (Or.inr ⟨rfl, rfl⟩)⟩
  · have hsec2 : (stepWorker url store second).1 = store ∧
        (stepWorker url store second).2 = ⟨Pc.done, [], Settle.ack, false⟩ := by
      rcases hfirst with ⟨_, hs⟩ | ⟨_, hs⟩ | ⟨_, hs⟩ <;> subst hs <;>
        rcases hsec with hq | hq <;> subst hq <;>
        simp [stepWorker, Worker.start, hS1, hS2, hS3]
    refine ⟨Or.inr ?_, ?_⟩
    · simp only [stepPair, if_true]
      exact hsec2.2
    · simp only [stepPair, if_true]
      rw [hsec2.1]
      exact hfirst

theorem serialInv_run (s : Store) (url : String) (n : Nat) (sched : List Bool)
    (hn : n < 4294967296) (hc : s.get counterKey = some (decimal n)) (hu : s.get url = none) :
    ∀ p : Pair, SerialInv s url n p → SerialInv s url n (runPair url p sched) := by
  induction sched with
  | nil => intro p h; exact h
  | cons who rest ih =>
    intro p h
    exact ih _ (serialInv_step s url n p who hn hc hu h)

theorem serialInv_finished (s : Store) (url : String) (n : Nat) (p : Pair)
    (h : SerialInv s url n p) (hf : p.first.pc = Pc.done) :
    p.store = boundStore s url n ∧ p.first.toCrawl = [jobBytes n] ∧ p.second.toCrawl = [] := by
  obtain ⟨hsec, hfirst⟩ := h
  have h2 : p.second.toCrawl = [] := by
    rcases hsec with hq | hq
    · rw [hq]; rfl
    · rw [hq]
  rcases hfirst with ⟨hw, hs⟩ | ⟨hw, hs⟩ | ⟨hw, hs⟩
  · rw [hw] at hf; cases hf
  · rw [hw] at hf; cases hf
  · exact ⟨hs, by rw [hw], h2⟩

theorem doneCount_le_one (w : Worker) : doneCount w ≤ 1 := by
  unfold doneCount
  split <;> omega

theorem stepWorker_done (url : String) (s : Store) (w : Worker) (h : w.pc = Pc.done) :
    stepWorker url s w = (s, w) := by
  unfold stepWorker
  rw [h]

theorem stepWorker_racing (url : String) (s : Store) (w : Worker) (n c : Nat)
    (hne : url ≠ counterKey) (hn : n + 1 < 4294967296) (hw : Racing n w)
    (hnd : w.pc ≠ Pc.done) (hc : s.get counterKey = some (decimal c)) (hcn : c ≤ n + 1) :
    Racing n (stepWorker url s w).2 ∧
    (stepWorker url s w).1.get counterKey
      = some (decimal (c + doneCount (stepWorker url s w).2)) := by
  obtain ⟨pc, tc, st, r⟩ := w
  rcases hw with ⟨htc, hpc⟩ | ⟨hpc, _⟩
  · simp only at htc hpc
    subst htc
    rcases hpc with hpc | ⟨m, hm, hpc | hpc | hpc⟩ <;> subst hpc
    · refine ⟨Or.inl ⟨?_, Or.inr ⟨c, hcn, Or.inl ?_⟩⟩, ?_⟩ <;>
        simp [stepWorker, hc, doneCount]
    · refine ⟨Or.inl ⟨rfl, Or.inr ⟨m, hm, Or.inr (Or.inl rfl)⟩⟩, ?_⟩
      simp only [stepWorker, doneCount]
      rw [Store.get_set_ne _ _ _ _ (Ne.symm hne), hc]
      simp
    · refine ⟨Or.inl ⟨rfl, Or.inr ⟨m, hm, Or.inr (Or.inr rfl)⟩⟩, ?_⟩
      simp only [stepWorker, doneCount]
      rw [Store.get_set_ne _ _ _ _ (Ne.symm (decimal_ne_counterKey m)), hc]
      simp
    · have hincr := Store.incr_decimal s c (by unfold int64Max; omega) hc
      have hpub := publishUrl_decimal m (by omega)
      refine ⟨Or.inr ?_, ?_⟩
      · simp [stepWorker, hincr, hpub]
      · simp [stepWorker, hincr, hpub, doneCount, Store.get_set_self]
  · exact absurd hpc hnd

theorem raceInv_step (url : String) (n : Nat) (p : Pair) (who : Bool)
    (hne : url ≠ counterKey) (hn : n + 1 < 4294967296)
    (h : RaceInv n p) : RaceInv n (stepPair url p who) := by
  obtain ⟨h1, h2, hc⟩ := h
  cases who
  · by_cases hd : p.first.pc = Pc.done
    · simp only [stepPair, Bool.false_eq_true, if_false, stepWorker_done url p.store p.first hd]
      exact ⟨h1, h2, hc⟩
    · have h0 : doneCount p.first = 0 := by simp [doneCount, hd]
      have hle := doneCount_le_one p.second
      rw [h0, Nat.add_zero] at hc
      obtain ⟨hr, hg⟩ := stepWorker_racing url p.store p.first n (n + doneCount p.second)
        hne hn h1 hd hc (by omega)
      refine ⟨hr, h2, ?_⟩
      simp only [stepPair, Bool.false_eq_true, if_false]
      rw [hg]
      congr 2
      omega
  · by_cases hd : p.second.pc = Pc.done
    · simp only [stepPair, if_true, stepWorker_done url p.store p.second hd]
      exact ⟨h1, h2, hc⟩
    · have h0 : doneCount p.second = 0 := by simp [doneCount, hd]
      have hle := doneCount_le_one p.first
      rw [h0, Nat.add_zero] at hc
      obtain ⟨hr, hg⟩ := stepWorker_racing url p.store p.second n (n + doneCount p.first)
        hne hn h2 hd hc (by omega)
      refine ⟨h1, hr, ?_⟩
      simp only [stepPair, if_true]
      rw [hg]

theorem raceInv_run (url : String) (n : Nat) (sched : List Bool)
    (hne : url ≠ counterKey) (hn : n + 1 < 4294967296) :
    ∀ p : Pair, RaceInv n p → RaceInv n (runPair url p sched) := by
  induction sched with
  | nil => intro p h; exact h
  | cons who rest ih =>
    intro p h
    exact ih _ (raceInv_step url n p who hne hn h)

theorem raceInv_finished (n : Nat) (p : Pair) (h : RaceInv n p) (hf : p.finished = true) :
    p.store.get counterKey = some (decimal (n + 2)) ∧
    (p.first.toCrawl ++ p.second.toCrawl).length = 2 := by
  obtain ⟨h1, h2, hc⟩ := h
  simp only [Pair.finished, Bool.and_eq_true, decide_eq_true_eq] at hf
  obtain ⟨hf1, hf2⟩ := hf
  have l1 : p.first.toCrawl.length = 1 := by
    rcases h1 with ⟨_, hpc⟩ | ⟨_, hl⟩
    · rw [hf1] at hpc
      rcases hpc with hpc | ⟨m, _, hpc | hpc | hpc⟩ <;> cases hpc
    · exact hl
  have l2 : p.second.toCrawl.length = 1 := by
    rcases h2 with ⟨_, hpc⟩ | ⟨_, hl⟩
    · rw [hf2] at hpc
      rcases hpc with hpc | ⟨m, _, hpc | hpc | hpc⟩ <;> cases hpc
    · exact hl
  refine ⟨?_, by rw [List.length_append, l1, l2]⟩
  rw [hc]
  simp [doneCount, hf1, hf2]

theorem not_finished_early (url : String) (s : Store) (n : Nat) (sched : List Bool)
    (hc : s.get counterKey = some (decimal n)) (hu : s.get url = none)
    (hlen : sched.length < 3) :
    (runPair url ⟨s, Worker.start, Worker.start⟩ sched).finished = false := by
  have hk : ¬ s.keyExists url = 1 := by
    rw [Store.keyExists_eq_one]; simp [hu]
  match sched, hlen with
  | [], _ => rfl
  | [a], _ =>
    cases a <;> simp [runPair, stepPair, stepWorker, Worker.start, hk, Pair.finished]
  | [a, b], _ =>
    cases a <;> cases b <;>
      simp [runPair, stepPair, stepWorker, Worker.start, hk, hc, Pair.finished]

theorem serial_after_three (url : String) (s : Store) (n : Nat)
    (hc : s.get counterKey = some (decimal n)) (hu : s.get url = none) :
    SerialInv s url n (runPair url ⟨s, Worker.start, Worker.start⟩ [false, false, false]) := by
  have hk : ¬ s.keyExists url = 1 := by
    rw [Store.keyExists_eq_one]; simp [hu]
  have h3 : runPair url ⟨s, Worker.start, Worker.start⟩ [false, false, false]
      = ⟨s.set url (decimal n), ⟨Pc.atSetId (decimal n), [], Settle.unsettled, false⟩,
          Worker.start⟩ := by
    simp [runPair, stepPair, stepWorker, Worker.start, hk, hc]
  rw [h3]
  exact ⟨Or.inl rfl, Or.inl ⟨rfl, rfl⟩⟩

theorem race_after_three (url : String) (s : Store) (n : Nat) (a b c : Bool)
    (hc : s.get counterKey = some (decimal n)) (hu : s.get url = none)
    (h : checkAfterWrite [a, b, c] = false) :
    RaceInv n (runPair url ⟨s, Worker.start, Worker.start⟩ [a, b, c]) := by
  have hk : ¬ s.keyExists url = 1 := by
    rw [Store.keyExists_eq_one]; simp [hu]
  have hA : Racing n ⟨Pc.atGet, [], Settle.unsettled, false⟩ := Or.inl ⟨rfl, Or.inl rfl⟩
  have hB : Racing n ⟨Pc.atSetUrl (decimal n), [], Settle.unsettled, false⟩ :=
    Or.inl ⟨rfl, Or.inr ⟨n, by omega, Or.inl rfl⟩⟩
  have hfs : runPair url ⟨s, Worker.start, Worker.start⟩ [a, b, c]
        = ⟨s, ⟨Pc.atSetUrl (decimal n), [], Settle.unsettled, false⟩,
            ⟨Pc.atGet, [], Settle.unsettled, false⟩⟩ ∨
      runPair url ⟨s, Worker.start, Worker.start⟩ [a, b, c]
        = ⟨s, ⟨Pc.atGet, [], Settle.unsettled, false⟩,
            ⟨Pc.atSetUrl (decimal n), [], Settle.unsettled, false⟩⟩ := by
    cases a <;> cases b <;> cases c <;>
      first
        | (exfalso; revert h; decide)
        | simp [runPair, stepPair, stepWorker, Worker.start, hk, hc]
  rcases hfs with hfs | hfs <;> rw [hfs]
  · exact ⟨hB, hA, by simpa [doneCount] using hc⟩
  · exact ⟨hA, hB, by simpa [doneCount] using hc⟩

end Frontier

/-! ## The progress bar -/

theorem appendCells_eq (cell : Char) (twice : Int) :
    ∀ (fuel i : Nat) (acc : List Char), ((twice + 1) / 2).toNat - i ≤ fuel →
      Analyzer.appendCells cell twice fuel i acc
        = acc ++ List.replicate (((twice + 1) / 2).toNat - i) cell := by
  intro fuel
  induction fuel with
  | zero =>
    intro i acc h
    have h0 : ((twice + 1) / 2).toNat - i = 0 := by omega
    simp [Analyzer.appendCells, h0]
  | succ fuel ih =>
    intro i acc h
    unfold Analyzer.appendCells
    split
    · rename_i hlt
      rw [ih (i + 1) (acc ++ [cell]) (by omega)]
      have hk : ((twice + 1) / 2).toNat - i = (((twice + 1) / 2).toNat - (i + 1)) + 1 := by
        omega
      rw [hk, List.replicate_succ, List.append_assoc]
      rfl
    · rename_i hge
      have h0 : ((twice + 1) / 2).toNat - i = 0 := by omega
      simp [h0]

theorem createBarStr_eq (p : Int) :
    Analyzer.createBarStr p
      = String.mk (List.replicate ((p + 1) / 2).toNat '█'
          ++ List.replicate ((101 - p) / 2).toNat '░') := by
  unfold Analyzer.createBarStr
  rw [appendCells_eq '█' p p.toNat 0 [] (by omega),
    appendCells_eq '░' (100 - p) (100 - p).toNat 0 _ (by omega)]
  have h : (100 - p + 1) / 2 = (101 - p) / 2 := by
    congr 1
    omega
  simp [h]

/-! ## The claims about the wire format, the analyzer and malformed input -/

/-- C11: for an id below 2^32 the fetcher's `publishUrl` and the frontier's
`publishUrl`, given the id as the decimal text read from the store, both send
the same four bytes, most significant first, and `readUInt32BE` gives the id
back from them. Given these bytes, the fetcher's `consume` looks up, fetches,
republishes and sizes that very id, and the parser's `consume` parses the
links of that very id. -/
theorem job_id_round_trip (id : Nat) (h : id < 4294967296) :
    Fetcher.publishUrl id
      = some [id / 16777216 % 256, id / 65536 % 256, id / 256 % 256, id % 256] ∧
    Frontier.publishUrl (some (decimal id))
      = some [id / 16777216 % 256, id / 65536 % 256, id / 256 % 256, id % 256] ∧
    readUInt32BE [id / 16777216 % 256, id / 65536 % 256, id / 256 % 256, id % 256]
      = some id ∧
    (∀ (env : Fetcher.Env) (s : Store),
      Fetcher.consume env s [id / 16777216 % 256, id / 65536 % 256, id / 256 % 256, id % 256]
        = if env.getErr then ⟨[], [], true⟩
          else if env.scrape id (s.get (decimal id)) then
            match Fetcher.publishPageSize env id with
            | none =>
              ⟨[[id / 16777216 % 256, id / 65536 % 256, id / 256 % 256, id % 256]], [], false⟩
            | some msg =>
              ⟨[[id / 16777216 % 256, id / 65536 % 256, id / 256 % 256, id % 256]], [msg],
                false⟩
          else ⟨[], [], false⟩) ∧
    (∀ (env : Parser.Env) (s : Store),
      Parser.consume env s [id / 16777216 % 256, id / 65536 % 256, id / 256 % 256, id % 256]
        = Parser.parseLinks env s id) := by
  have hr := readUInt32BE_bytes id h
  have hw : Fetcher.publishUrl id
      = some [id / 16777216 % 256, id / 65536 % 256, id / 256 % 256, id % 256] :=
    writeUInt32BE_nat id h
  refine ⟨hw, ?_, hr, ?_, ?_⟩
  · unfold Frontier.publishUrl
    rw [Frontier.toNumber_decimal id]
    exact writeUInt32BE_nat id h
  · intro env s
    unfold Fetcher.consume
    simp only [hr, hw]
  · intro env s
    unfold Parser.consume
    rw [hr]

/-- An instance of C11: the id 16909060, also as the text `16909060`, is sent
as the bytes 1, 2, 3, 4 and read back; the fetcher, given these bytes with
the url of the id in the store and a page of 2048 bytes fetched, sends the
same bytes on and reports the size under that id. -/
theorem job_id_round_trip_witness :
    Fetcher.publishUrl 16909060 = some [1, 2, 3, 4] ∧
    Frontier.publishUrl (some "16909060") = some [1, 2, 3, 4] ∧
    readUInt32BE [1, 2, 3, 4] = some 16909060 ∧
    Fetcher.consume ⟨false, fun i u => i = 16909060 && u = some "http://site.test/x",
        fun i => if i = 16909060 then some 2048 else none⟩
        [("16909060", "http://site.test/x")] [1, 2, 3, 4]
      = ⟨[[1, 2, 3, 4]], [Json.obj [("dataType", Json.str "FILE_SIZE"),
          ("payload", Json.obj [("size", Json.num 2048), ("urlId", Json.num 16909060)])]],
          false⟩ ∧
    (∀ (env : Parser.Env) (s : Store),
      Parser.consume env s [1, 2, 3, 4] = Parser.parseLinks env s 16909060) :=
  have h := job_id_round_trip 16909060 (by decide)
  ⟨h.1, h.2.1, h.2.2.1,
    (h.2.2.2.1 ⟨false, fun i u => i = 16909060 && u = some "http://site.test/x",
      fun i => if i = 16909060 then some 2048 else none⟩
      [("16909060", "http://site.test/x")]).trans rfl,
    h.2.2.2.2⟩

/-- C12, the code at the failing input: the fetch of id 7 succeeds with a
page of 2048 bytes. The message the fetcher sends to `to_analyze` has the
member `dataType` and no member `event`; the handler of the analyzer returns
with the statistics untouched. The same payload under `event: "FETCH"`
counts one page of 2048 bytes. -/
theorem fetch_event_ignored :
    (Fetcher.consume ⟨false, fun _ _ => true, fun _ => some 2048⟩
        [("7", "http://site.test/x")] [0, 0, 0, 7]).toAnalyze
      = [Json.obj [("dataType", Json.str "FILE_SIZE"),
          ("payload", Json.obj [("size", Json.num 2048), ("urlId", Json.num 7)])]] ∧
    (∀ st : Analyzer.Stats,
      Analyzer.consume st (some (Json.obj [("dataType", Json.str "FILE_SIZE"),
          ("payload", Json.obj [("size", Json.num 2048), ("urlId", Json.num 7)])]))
        = Analyzer.Handled.ok st) ∧
    (∀ st : Analyzer.Stats,
      Analyzer.consume st (some (Json.obj [("event", Json.str "FETCH"),
          ("payload", Json.obj [("size", Json.num 2048), ("urlId", Json.num 7)])]))
        = Analyzer.Handled.ok (st.pageFetched 2048)) ∧
    (Analyzer.Stats.new.pageFetched 2048).totalFetched = 1 ∧
    (Analyzer.Stats.new.pageFetched 2048).totalSize = 2048 := by
  refine ⟨rfl, fun st => rfl, fun st => rfl, rfl, rfl⟩

/-- C13, as amended: a message whose payload does not parse, or whose parsed
value has no string member `url`, leaves the store as it was, publishes no
fetch job and is not negatively acknowledged, whichever store calls would
fail; when the payload does not parse, or parses to `null`, the handler does
not raise either. -/
theorem malformed_dropped (host : String) (f : Faults) (s : Store) (m : Message)
    (h : ∀ url, urlField m.parsed ≠ UrlField.value (Json.str url)) :
    (Frontier.consume host f s m).store = s ∧
    (Frontier.consume host f s m).toCrawl = [] ∧
    (Frontier.consume host f s m).settle ≠ Settle.nack ∧
    (urlField m.parsed = UrlField.throws → (Frontier.consume host f s m).raised = false) := by
  unfold Frontier.consume Frontier.consumeWith
  split
  · exact ⟨rfl, rfl, by simp, fun _ => rfl⟩
  · rename_i url hurl
    exact absurd hurl (h url)
  · rename_i h1 h2
    refine ⟨rfl, rfl, by simp, fun ht => absurd ht h1⟩

/-- An instance of C13: a payload that is not JSON is dropped without a
raise, whatever the store. -/
theorem malformed_dropped_witness :
    (Frontier.consume "site.test" noFaults [(counterKey, "1")] ⟨none⟩).store
      = [(counterKey, "1")] ∧
    (Frontier.consume "site.test" noFaults [(counterKey, "1")] ⟨none⟩).toCrawl = [] ∧
    (Frontier.consume "site.test" noFaults [(counterKey, "1")] ⟨none⟩).settle
      ≠ Settle.nack ∧
    (Frontier.consume "site.test" noFaults [(counterKey, "1")] ⟨none⟩).raised = false :=
  have h := malformed_dropped "site.test" noFaults [(counterKey, "1")] ⟨none⟩
    (fun url hu => by cases hu)
  ⟨h.1, h.2.1, h.2.2.1, h.2.2.2 rfl⟩

/-- C13 as stated fails twice. The payloads `{}` and `5` parse and have no
string `url`: the handler raises. The text `site.test not a url` is no url,
but it matches the host `site.test`, and it is given the id 1 and a fetch
job. -/
theorem malformed_dropped_counterexample :
    (Frontier.consume "site.test" noFaults [(counterKey, "1")]
        ⟨some (Json.obj [])⟩).raised = true ∧
    (Frontier.consume "site.test" noFaults [(counterKey, "1")]
        ⟨some (Json.num 5)⟩).raised = true ∧
    (Frontier.consume "site.test" noFaults [(counterKey, "1")]
        (candidate "site.test not a url")).store.get "site.test not a url" = some "1" ∧
    (Frontier.consume "site.test" noFaults [(counterKey, "1")]
        (candidate "site.test not a url")).toCrawl = [[0, 0, 0, 1]] := by
  decide

/-! ## The claim about two coordinators -/

namespace Frontier

theorem stepsLeft_step (url : String) (s : Store) (w : Worker) :
    stepsLeft (stepWorker url s w).2.pc ≤ stepsLeft w.pc - 1 := by
  obtain ⟨pc, tc, st, r⟩ := w
  cases pc <;> simp only [stepWorker] <;> (repeat' split) <;> simp [stepsLeft]

theorem stepsLeft_run (url : String) (sched : List Bool) :
    ∀ p : Pair,
      stepsLeft (runPair url p sched).first.pc ≤ stepsLeft p.first.pc - sched.count false ∧
      stepsLeft (runPair url p sched).second.pc
        ≤ stepsLeft p.second.pc - sched.count true := by
  induction sched with
  | nil => intro p; simp [runPair]
  | cons who rest ih =>
    intro p
    obtain ⟨h1, h2⟩ := ih (stepPair url p who)
    simp only [runPair]
    cases who
    · have hs := stepsLeft_step url p.store p.first
      have e1 : (stepPair url p false).first = (stepWorker url p.store p.first).2 := rfl
      have e2 : (stepPair url p false).second = p.second := rfl
      rw [e1] at h1
      rw [e2] at h2
      simp only [List.count_cons_self, List.count_cons_of_ne (by decide : true ≠ false)]
      constructor <;> omega
    · have hs := stepsLeft_step url p.store p.second
      have e1 : (stepPair url p true).first = p.first := rfl
      have e2 : (stepPair url p true).second = (stepWorker url p.store p.second).2 := rfl
      rw [e1] at h1
      rw [e2] at h2
      simp only [List.count_cons_self, List.count_cons_of_ne (by decide : false ≠ true)]
      constructor <;> omega

theorem done_of_stepsLeft (pc : Pc) (h : stepsLeft pc = 0) : pc = Pc.done := by
  cases pc <;> simp [stepsLeft] at h ⊢

/-- Every interleaving that serves five store calls of each coordinator sees
both through. -/
theorem finished_of_served (url : String) (p : Pair) (sched : List Bool)
    (h1 : 5 ≤ sched.count false) (h2 : 5 ≤ sched.count true) :
    (runPair url p sched).finished = true := by
  obtain ⟨g1, g2⟩ := stepsLeft_run url sched p
  have b1 : stepsLeft p.first.pc ≤ 5 := by cases p.first.pc <;> simp [stepsLeft]
  have b2 : stepsLeft p.second.pc ≤ 5 := by cases p.second.pc <;> simp [stepsLeft]
  have d1 := done_of_stepsLeft _ (by omega : stepsLeft (runPair url p sched).first.pc = 0)
  have d2 := done_of_stepsLeft _ (by omega : stepsLeft (runPair url p sched).second.pc = 0)
  simp [Pair.finished, d1, d2]

theorem finished_outcome (url : String) (s : Store) (n : Nat) (sched : List Bool)
    (hn : n + 1 < 4294967296) (hc : s.get counterKey = some (decimal n))
    (hu : s.get url = none)
    (hfin : (runPair url ⟨s, Worker.start, Worker.start⟩ sched).finished = true) :
    (checkAfterWrite sched = true →
      (runPair url ⟨s, Worker.start, Worker.start⟩ sched).store.get url
        = some (decimal n) ∧
      (runPair url ⟨s, Worker.start, Worker.start⟩ sched).store.get (decimal n)
        = some url ∧
      (runPair url ⟨s, Worker.start, Worker.start⟩ sched).store.get counterKey
        = some (decimal (n + 1)) ∧
      ((runPair url ⟨s, Worker.start, Worker.start⟩ sched).first.toCrawl
          ++ (runPair url ⟨s, Worker.start, Worker.start⟩ sched).second.toCrawl).map
          readUInt32BE = [some n]) ∧
    (checkAfterWrite sched = false →
      (runPair url ⟨s, Worker.start, Worker.start⟩ sched).store.get counterKey
        = some (decimal (n + 2)) ∧
      ((runPair url ⟨s, Worker.start, Worker.start⟩ sched).first.toCrawl
          ++ (runPair url ⟨s, Worker.start, Worker.start⟩ sched).second.toCrawl).length
        = 2) := by
  have hne := ne_counterKey_of_absent s url n hc hu
  have hread := readUInt32BE_jobBytes n (by omega)
  have hfin2 := hfin
  simp only [Pair.finished, Bool.and_eq_true, decide_eq_true_eq] at hfin2
  match sched, hfin, hfin2 with
  | [], hfin, _ =>
    rw [not_finished_early url s n [] hc hu (by simp)] at hfin
    cases hfin
  | [a], hfin, _ =>
    rw [not_finished_early url s n [a] hc hu (by simp)] at hfin
    cases hfin
  | [a, b], hfin, _ =>
    rw [not_finished_early url s n [a, b] hc hu (by simp)] at hfin
    cases hfin
  | a :: b :: c :: rest, hfin, hfin2 =>
    have happ : runPair url ⟨s, Worker.start, Worker.start⟩ (a :: b :: c :: rest)
        = runPair url (runPair url ⟨s, Worker.start, Worker.start⟩ [a, b, c]) rest :=
      runPair_append url [a, b, c] rest _
    have hcw : checkAfterWrite (a :: b :: c :: rest) = checkAfterWrite [a, b, c] := rfl
    rw [hcw]
    by_cases hser : checkAfterWrite [a, b, c] = true
    · refine ⟨fun _ => ?_, fun h => by rw [hser] at h; cases h⟩
      have key : ∀ q : Pair, SerialInv s url n q → q.first.pc = Pc.done →
          q.store.get url = some (decimal n) ∧ q.store.get (decimal n) = some url ∧
          q.store.get counterKey = some (decimal (n + 1)) ∧
          q.first.toCrawl = [jobBytes n] ∧ q.second.toCrawl = [] := by
        intro q hq hd
        obtain ⟨hs, h1, h2⟩ := serialInv_finished s url n q hq hd
        rw [hs]
        exact ⟨get_url_boundStore s url n hne, get_id_boundStore s url n,
          get_counter_boundStore s url n, h1, h2⟩
      have habc : (a = false ∧ b = false ∧ c = false) ∨ (a = true ∧ b = true ∧ c = true) := by
        revert hser
        cases a <;> cases b <;> cases c <;> decide
      rcases habc with ⟨ha, hb, hc3⟩ | ⟨ha, hb, hc3⟩ <;> subst ha <;> subst hb <;> subst hc3
      · have hinv := serialInv_run s url n rest (by omega) hc hu _
          (serial_after_three url s n hc hu)
        rw [← happ] at hinv
        obtain ⟨g1, g2, g3, g4, g5⟩ := key _ hinv hfin2.1
        refine ⟨g1, g2, g3, ?_⟩
        rw [g4, g5]
        simp [hread]
      · have hsw := runPair_swap url (true :: true :: true :: rest)
          ⟨s, Worker.start, Worker.start⟩
        have hinv := serialInv_run s url n (rest.map (fun b => !b)) (by omega) hc hu _
          (serial_after_three url s n hc hu)
        rw [← runPair_append url [false, false, false]] at hinv
        have hsw2 : (runPair url ⟨s, Worker.start, Worker.start⟩
            (true :: true :: true :: rest)).swap
            = runPair url ⟨s, Worker.start, Worker.start⟩
                ([false, false, false] ++ rest.map (fun b => !b)) := hsw
        rw [← hsw2] at hinv
        obtain ⟨g1, g2, g3, g4, g5⟩ := key _ hinv hfin2.2
        refine ⟨g1, g2, g3, ?_⟩
        have g4b : (runPair url ⟨s, Worker.start, Worker.start⟩
            (true :: true :: true :: rest)).second.toCrawl = [jobBytes n] := g4
        have g5b : (runPair url ⟨s, Worker.start, Worker.start⟩
            (true :: true :: true :: rest)).first.toCrawl = [] := g5
        rw [g4b, g5b]
        simp [hread]
    · have hrace : checkAfterWrite [a, b, c] = false := by
        cases hcw3 : checkAfterWrite [a, b, c]
        · rfl
        · exact absurd hcw3 hser
      refine ⟨fun h => absurd h hser, fun _ => ?_⟩
      have hinv := raceInv_run url n rest hne hn _ (race_after_three url s n a b c hc hu hrace)
      rw [← happ] at hinv
      exact raceInv_finished n _ hinv hfin

/-- C14, as amended: two coordinators handle the same url, absent from the
store, with the counter at `n` (`n + 1 < 2^32`) and no store call failing;
the store serves their calls in the order `sched`. Every order that serves
five calls of each coordinator sees both through. Whenever both are through:
if the first three calls served come from one coordinator, so that its url
write precedes the existence check of the other, the url is bound both ways
to `n`, the counter ends at `n + 1` and the one fetch job published is that
of `n`; in every other interleaving both coordinators find the url absent,
two fetch jobs are published and the counter ends at `n + 2`. -/
theorem concurrent_admission (url : String) (s : Store) (n : Nat) (sched : List Bool)
    (hn : n + 1 < 4294967296) (hc : s.get counterKey = some (decimal n))
    (hu : s.get url = none) :
    (5 ≤ sched.count false → 5 ≤ sched.count true →
      (runPair url ⟨s, Worker.start, Worker.start⟩ sched).finished = true) ∧
    ((runPair url ⟨s, Worker.start, Worker.start⟩ sched).finished = true →
      (checkAfterWrite sched = true →
        (runPair url ⟨s, Worker.start, Worker.start⟩ sched).store.get url
          = some (decimal n) ∧
        (runPair url ⟨s, Worker.start, Worker.start⟩ sched).store.get (decimal n)
          = some url ∧
        (runPair url ⟨s, Worker.start, Worker.start⟩ sched).store.get counterKey
          = some (decimal (n + 1)) ∧
        ((runPair url ⟨s, Worker.start, Worker.start⟩ sched).first.toCrawl
            ++ (runPair url ⟨s, Worker.start, Worker.start⟩ sched).second.toCrawl).map
            readUInt32BE = [some n]) ∧
      (checkAfterWrite sched = false →
        (runPair url ⟨s, Worker.start, Worker.start⟩ sched).store.get counterKey
          = some (decimal (n + 2)) ∧
        ((runPair url ⟨s, Worker.start, Worker.start⟩ sched).first.toCrawl
            ++ (runPair url ⟨s, Worker.start, Worker.start⟩ sched).second.toCrawl).length
          = 2)) :=
  ⟨fun h1 h2 => finished_of_served url _ sched h1 h2,
    fun hfin => finished_outcome url s n sched hn hc hu hfin⟩

/-- Two instances of C14 for the url `http://site.test/` with the counter at
1, each serving five calls of either coordinator, so that both get through.
When the first coordinator is served all its calls before the second, one
job, for id 1, is published and the counter ends at 2. When the calls
alternate, two jobs are published and the counter ends at 3. -/
theorem concurrent_admission_witness :
    ((runPair "http://site.test/" ⟨[(counterKey, "1")], Worker.start, Worker.start⟩
        [false, false, false, false, false, true, true, true, true, true]).finished = true ∧
    (runPair "http://site.test/" ⟨[(counterKey, "1")], Worker.start, Worker.start⟩
        [false, false, false, false, false, true, true, true, true, true]).store.get
        "http://site.test/" = some "1" ∧
    (runPair "http://site.test/" ⟨[(counterKey, "1")], Worker.start, Worker.start⟩
        [false, false, false, false, false, true, true, true, true, true]).store.get "1"
      = some "http://site.test/" ∧
    (runPair "http://site.test/" ⟨[(counterKey, "1")], Worker.start, Worker.start⟩
        [false, false, false, false, false, true, true, true, true, true]).store.get
        counterKey = some "2" ∧
    ((runPair "http://site.test/" ⟨[(counterKey, "1")], Worker.start, Worker.start⟩
        [false, false, false, false, false, true, true, true, true, true]).first.toCrawl
      ++ (runPair "http://site.test/" ⟨[(counterKey, "1")], Worker.start, Worker.start⟩
        [false, false, false, false, false, true, true, true, true, true]).second.toCrawl).map
        readUInt32BE = [some 1]) ∧
    ((runPair "http://site.test/" ⟨[(counterKey, "1")], Worker.start, Worker.start⟩
        [false, true, false, true, false, true, false, true, false, true]).finished = true ∧
    (runPair "http://site.test/" ⟨[(counterKey, "1")], Worker.start, Worker.start⟩
        [false, true, false, true, false, true, false, true, false, true]).store.get
        counterKey = some "3" ∧
    ((runPair "http://site.test/" ⟨[(counterKey, "1")], Worker.start, Worker.start⟩
        [false, true, false, true, false, true, false, true, false, true]).first.toCrawl
      ++ (runPair "http://site.test/" ⟨[(counterKey, "1")], Worker.start, Worker.start⟩
        [false, true, false, true, false, true, false, true, false, true]).second.toCrawl).length
      = 2) :=
  have a := concurrent_admission "http://site.test/" [(counterKey, "1")] 1
    [false, false, false, false, false, true, true, true, true, true]
    (by decide) (by decide) (by decide)
  have b := concurrent_admission "http://site.test/" [(counterKey, "1")] 1
    [false, true, false, true, false, true, false, true, false, true]
    (by decide) (by decide) (by decide)
  have fa := a.1 (by decide) (by decide)
  have fb := b.1 (by decide) (by decide)
  ⟨⟨fa, (a.2 fa).1 (by decide)⟩, ⟨fb, (b.2 fb).2 (by decide)⟩⟩

/-- C14 as stated fails. Two coordinators handle `http://site.test/`, absent
from a store whose counter is at 1. The store serves the existence checks of
both, then the other calls of the first, then those of the second: both get
through, the fetch jobs of the ids 1 and 2 are published, both ids are mapped
to the url, the url is mapped to 2 and the counter ends at 3. -/
theorem concurrent_admission_counterexample :
    (runPair "http://site.test/" ⟨[(counterKey, "1")], Worker.start, Worker.start⟩
        [false, true, false, false, false, false, true, true, true, true]).finished = true ∧
    (runPair "http://site.test/" ⟨[(counterKey, "1")], Worker.start, Worker.start⟩
        [false, true, false, false, false, false, true, true, true, true]).first.toCrawl
      = [[0, 0, 0, 1]] ∧
    (runPair "http://site.test/" ⟨[(counterKey, "1")], Worker.start, Worker.start⟩
        [false, true, false, false, false, false, true, true, true, true]).second.toCrawl
      = [[0, 0, 0, 2]] ∧
    (runPair "http://site.test/" ⟨[(counterKey, "1")], Worker.start, Worker.start⟩
        [false, true, false, false, false, false, true, true, true, true]).store
      = [(counterKey, "3"), ("http://site.test/", "2"), ("1", "http://site.test/"),
          ("2", "http://site.test/")] := by
  decide

end Frontier

/-! ## The claim about the progress bar -/

/-- C15: for a percentage `p` from 0 to 100, `createBarStr` returns
`ceil(p / 2)` filled cells followed by `ceil(50 - p / 2)` empty cells, 50
cells in all when `p` is even and 51 when `p` is odd. -/
theorem createBarStr_width (p : Int) (h0 : 0 ≤ p) (h1 : p ≤ 100) :
    Analyzer.createBarStr p
      = String.mk (List.replicate ((p + 1) / 2).toNat '█'
          ++ List.replicate ((101 - p) / 2).toNat '░') ∧
    (Analyzer.createBarStr p).length = if p % 2 = 0 then 50 else 51 := by
  refine ⟨createBarStr_eq p, ?_⟩
  rw [createBarStr_eq p]
  simp only [String.length, List.length_append, List.length_replicate]
  split <;> omega

/-- An instance of C15: at 7 percent the bar has 4 filled and 47 empty cells,
51 in all. -/
theorem createBarStr_width_witness :
    Analyzer.createBarStr 7
      = String.mk (List.replicate 4 '█' ++ List.replicate 47 '░') ∧
    (Analyzer.createBarStr 7).length = 51 :=
  createBarStr_width 7 (by decide) (by decide)

end Crawoler
